import Mathlib

/-!
# Verification of the NEXRAD Level 2 decoder and polar-to-Cartesian resampler

Shallow embedding of `src/decoder/polarToCartesian.js` (the `polarToCartesian` /
`binarySearch` functions and the `NexradLevel2` class).  Byte buffers are
`List Nat` of byte values; JavaScript numbers that can carry the results of
`DataView.getFloat32` are modelled exactly by the type `JsF` (a rational, one of
the two infinities, or NaN — every IEEE-754 binary32 payload decodes exactly to
one of these, and all arithmetic the decoder performs on them stays exact).
`DataView` reads return `Option` values: `none` models the `RangeError` that the
source catches in its `try`/`catch` blocks.  The scanning loops are written with
an explicit fuel argument (the source's `while` loops advance their position by
at least one byte per iteration, so fuel equal to the buffer length is always
sufficient); all theorems about the loops quantify over the fuel.
-/

/-- JavaScript number values reachable in the decoder: exact rationals,
the two infinities and NaN. `DataView.getFloat32` always produces one of
these, exactly. The sign of zero is collapsed (`0 === -0` in JS and the
decoder never distinguishes them). -/
inductive JsF where
  | num (q : ℚ)
  | posInf
  | negInf
  | nan
deriving DecidableEq

/-- JS `a < b` (false whenever an operand is NaN). -/
def JsF.ltb : JsF → JsF → Bool
  | .nan, _ => false
  | _, .nan => false
  | .posInf, _ => false
  | .negInf, .negInf => false
  | .negInf, _ => true
  | _, .posInf => true
  | .num _, .negInf => false
  | .num a, .num b => decide (a < b)

/-- JS `a >= b` (false whenever an operand is NaN). -/
def JsF.geb : JsF → JsF → Bool
  | .nan, _ => false
  | _, .nan => false
  | .posInf, _ => true
  | .negInf, .negInf => true
  | .negInf, _ => false
  | _, .posInf => false
  | .num _, .negInf => true
  | .num a, .num b => decide (b ≤ a)

/-- JS addition on the values of `JsF`. -/
def JsF.add : JsF → JsF → JsF
  | .nan, _ => .nan
  | _, .nan => .nan
  | .posInf, .negInf => .nan
  | .negInf, .posInf => .nan
  | .posInf, _ => .posInf
  | _, .posInf => .posInf
  | .negInf, _ => .negInf
  | _, .negInf => .negInf
  | .num a, .num b => .num (a + b)

/-- JS negation. -/
def JsF.neg : JsF → JsF
  | .num q => .num (-q)
  | .posInf => .negInf
  | .negInf => .posInf
  | .nan => .nan

/-- JS subtraction. -/
def JsF.sub (a b : JsF) : JsF := a.add b.neg

/-- JS division on the values of `JsF` (the sign of a zero divisor is
collapsed to `+0`, which is the only zero the decoder can produce here). -/
def JsF.div : JsF → JsF → JsF
  | .nan, _ => .nan
  | _, .nan => .nan
  | .posInf, .posInf => .nan
  | .posInf, .negInf => .nan
  | .negInf, .posInf => .nan
  | .negInf, .negInf => .nan
  | .posInf, .num b => if b < 0 then .negInf else .posInf
  | .negInf, .num b => if b < 0 then .posInf else .negInf
  | .num _, .posInf => .num 0
  | .num _, .negInf => .num 0
  | .num a, .num b =>
    if b = 0 then (if a = 0 then .nan else if a < 0 then .negInf else .posInf)
    else .num (a / b)

/-- Exact decoding of a 32-bit IEEE-754 binary32 bit pattern
(as read big-endian by `DataView.getFloat32`). -/
def decodeF32 (u : Nat) : JsF :=
  let sign : Nat := u / 2 ^ 31 % 2
  let ex : Nat := u / 2 ^ 23 % 256
  let man : Nat := u % 2 ^ 23
  if ex = 255 then
    if man = 0 then (if sign = 1 then .negInf else .posInf) else .nan
  else
    let mag : ℚ :=
      if ex = 0 then (man : ℚ) / 2 ^ 149
      else if 150 ≤ ex then ((2 ^ 23 + man : Nat) : ℚ) * 2 ^ (ex - 150)
      else ((2 ^ 23 + man : Nat) : ℚ) / 2 ^ (150 - ex)
    .num (if sign = 1 then -mag else mag)

/-- A byte of the buffer, or `none` out of bounds (models the `RangeError`
thrown by `DataView` reads past the end). -/
def byteAt (b : List Nat) (i : Nat) : Option Nat := b.get? i

/-- A byte of the buffer with default 0, used only at positions the source has
already bounds-checked. -/
def byteAtD (b : List Nat) (i : Nat) : Nat := b.getD i 0

/-- `DataView.getUint16(i, false)` — big-endian. -/
def getUint16 (b : List Nat) (i : Nat) : Option Nat :=
  match b.get? i, b.get? (i + 1) with
  | some x, some y => some (x * 256 + y)
  | _, _ => none

/-- `DataView.getUint32(i, false)` — big-endian. -/
def getUint32 (b : List Nat) (i : Nat) : Option Nat :=
  match b.get? i, b.get? (i + 1), b.get? (i + 2), b.get? (i + 3) with
  | some x, some y, some z, some w => some (((x * 256 + y) * 256 + z) * 256 + w)
  | _, _, _, _ => none

/-- `DataView.getInt32(i, false)` — big-endian, two's complement. -/
def getInt32 (b : List Nat) (i : Nat) : Option Int :=
  (getUint32 b i).map (fun u => if u < 2 ^ 31 then (u : Int) else (u : Int) - 2 ^ 32)

/-- `DataView.getFloat32(i, false)` — big-endian. -/
def getFloat32 (b : List Nat) (i : Nat) : Option JsF :=
  (getUint32 b i).map decodeF32

/-- `str.replace(/\0/g, '')` on a byte string. -/
def stripZeros (bs : List Nat) : List Nat := bs.filter (· ≠ 0)

/-- The canonical moment names — the values of the source's `MOMENT_MAP`. -/
inductive MomentName where
  | REF | VEL | SW | ZDR | PHI | RHO | CFP
deriving DecidableEq

/-- `MOMENT_MAP` lookup, applied to a name whose NUL bytes were already
stripped (as the source does before the lookup; the `'SW\x00'` key of the
source's table is therefore reachable only through its stripped form `SW`). -/
def momentMap (name : List Nat) : Option MomentName :=
  if name = [82, 69, 70] then some .REF
  else if name = [86, 69, 76] then some .VEL
  else if name = [83, 87] then some .SW
  else if name = [90, 68, 82] then some .ZDR
  else if name = [80, 72, 73] then some .PHI
  else if name = [82, 72, 79] then some .RHO
  else if name = [67, 70, 80] then some .CFP
  else none

/-- Alphabetical rank of the canonical moment name strings
(used to model JavaScript's default string `sort()`). -/
def momentRank : MomentName → Nat
  | .CFP => 0 | .PHI => 1 | .REF => 2 | .RHO => 3 | .SW => 4 | .VEL => 5 | .ZDR => 6

/-- One decoded moment block (the return value of `_parseMomentBlock`). -/
structure MomentRec where
  name : List Nat
  numGates : Nat
  firstGate : ℚ
  gateWidth : ℚ
  data : List JsF
deriving DecidableEq

/-- One accepted ray (the return value of `_parseMessage31`). The moments
object is modelled as an association list with unique keys in insertion
order; the datetime is the epoch-millisecond value of the JS `Date`. -/
structure Ray where
  stationId : List Nat
  azimuth : ℚ
  elevation : JsF
  sweepNumber : Nat
  moments : List (MomentName × MomentRec)
  vcp : Nat
  datetime : Option Nat
deriving DecidableEq

instance : Inhabited Ray := ⟨⟨[], 0, .nan, 0, [], 0, none⟩⟩

/-- `momentsData[m] = md` on the association-list model of a JS object:
overwrite in place if the key exists, else append. -/
def setMoment : List (MomentName × MomentRec) → MomentName → MomentRec →
    List (MomentName × MomentRec)
  | [], m, md => [(m, md)]
  | (k, v) :: rest, m, md =>
    if k = m then (k, md) :: rest else (k, v) :: setMoment rest m md

/-- `ray.moments[m]` lookup. -/
def findMoment : List (MomentName × MomentRec) → MomentName → Option MomentRec
  | [], _ => none
  | (k, v) :: rest, m => if k = m then some v else findMoment rest m

/-- The 8-bit gate samples starting at `p` (one byte per gate),
read after the source's bounds check. -/
def readRaw8 (view : List Nat) (p n : Nat) : List Nat :=
  (List.range n).map (fun i => byteAtD view (p + i))

/-- The 16-bit big-endian gate samples starting at `p`,
read after the source's bounds check. -/
def readRaw16 (view : List Nat) (p n : Nat) : List Nat :=
  (List.range n).map (fun i => byteAtD view (p + 2 * i) * 256 + byteAtD view (p + 2 * i + 1))

/-- The gate-sample read of `_parseMomentBlock` (source lines 477–496): one
byte per gate for word size 8, one big-endian 16-bit word per gate for word
size 16, `none` on any other word size or when the samples would run past
the end of the view. -/
def readGateSamples (view : List Nat) (dataStart numGates dataWordSize : Nat) :
    Option (List Nat) :=
  if dataWordSize = 8 then
    if dataStart + numGates > view.length then none
    else some (readRaw8 view dataStart numGates)
  else if dataWordSize = 16 then
    if dataStart + numGates * 2 > view.length then none
    else some (readRaw16 view dataStart numGates)
  else none

/-- `NexradLevel2._parseMomentBlock(view, pos)`. -/
def parseMomentBlock (view : List Nat) (pos : Nat) : Option MomentRec :=
  if pos + 28 > view.length then none
  else
    match byteAt view (pos + 1), byteAt view (pos + 2), byteAt view (pos + 3),
        getUint16 view (pos + 8), getUint16 view (pos + 10), getUint16 view (pos + 12),
        byteAt view (pos + 19), getFloat32 view (pos + 20), getFloat32 view (pos + 24) with
    | some n0, some n1, some n2, some numGates, some firstGateM, some gateWidthM,
        some dataWordSize, some scale, some offset =>
      if numGates < 1 ∨ 2000 < numGates then none
      else if gateWidthM < 50 ∨ 4000 < gateWidthM then none
      else if scale = .num 0 then none
      else
        match readGateSamples view (pos + 28) numGates dataWordSize with
        | none => none
        | some rawValues =>
          some { name := [n0, n1, n2]
                 numGates := numGates
                 firstGate := (firstGateM : ℚ) / 1000
                 gateWidth := (gateWidthM : ℚ) / 1000
                 data := rawValues.map (fun (v : Nat) =>
                   if v < 2 then JsF.nan else JsF.div (JsF.sub (.num (v : ℚ)) offset) scale) }
    | _, _, _, _, _, _, _, _, _ => none

/-- The azimuth-decoding policy of `_parseMessage31` (source lines 368–385):
try the IEEE-float reading `az`; on a value outside `[0, 360)` replace it by
the scaled-integer reading `azInt / 8`; then, if the current value is outside
`[0, 360)` or NaN, take the scaled-integer reading and reject the ray
(`none`) when it is still outside the range. -/
def decodeAzimuth (az : JsF) (azInt : Nat) : Option ℚ :=
  let a1 := if JsF.ltb az (.num 0) || JsF.geb az (.num 360) then JsF.num ((azInt : ℚ) / 8) else az
  if JsF.ltb a1 (.num 0) || JsF.geb a1 (.num 360) || a1 = .nan then
    let a2 : ℚ := (azInt : ℚ) / 8
    if a2 < 0 ∨ 360 ≤ a2 then none else some a2
  else
    match a1 with
    | .num q => some q
    | _ => none

/-- The `dataBlockCount` block-pointer reads of `_parseMessage31`
(`getUint32` at `start+32`, `start+36`, …; any out-of-bounds read throws in
the source and is caught as a whole-ray reject — modelled by `none`). -/
def readBlockPointers (view : List Nat) : Nat → Nat → Option (List Nat)
  | _, 0 => some []
  | ptrOffset, n + 1 =>
    match getUint32 view ptrOffset, readBlockPointers view (ptrOffset + 4) n with
    | some p, some rest => some (p :: rest)
    | _, _ => none

/-- One iteration of the block-pointer loop of `_parseMessage31`: a zero
pointer is skipped, an `'R'` block yields the VCP, a `'D'` block is sent to
the moment-block decoder and recorded when its (NUL-stripped) name is in
`MOMENT_MAP`. The state is the pair (vcp, momentsData). -/
def processBlock (view : List Nat) (start : Nat)
    (st : Nat × List (MomentName × MomentRec)) (ptr : Nat) :
    Nat × List (MomentName × MomentRec) :=
  if ptr = 0 then st
  else
    let blockPos := start + ptr
    if blockPos + 4 > view.length then st
    else
      let typeChar := byteAtD view blockPos
      if typeChar = 82 then
        if blockPos + 20 ≤ view.length then
          match getUint16 view (blockPos + 16) with
          | some w => (w, st.2)
          | none => st
        else st
      else if typeChar = 68 then
        match parseMomentBlock view blockPos with
        | some md =>
          match momentMap (stripZeros md.name) with
          | some m => (st.1, setMoment st.2 m md)
          | none => st
        | none => st
      else st

/-- `NexradLevel2._parseMessage31(view, start, maxLength)` (`maxLength` is
never used by the source body). -/
def parseMessage31 (view : List Nat) (start : Nat) (_maxLength : Nat) : Option Ray :=
  if start + 60 > view.length then none
  else
    match byteAt view start, byteAt view (start + 1), byteAt view (start + 2),
        byteAt view (start + 3) with
    | some id0, some id1, some id2, some id3 =>
      if ¬(65 ≤ id0 ∧ id0 ≤ 90) then none
      else
        match getUint32 view (start + 4), getUint16 view (start + 8),
            getFloat32 view (start + 12), getUint32 view (start + 12) with
        | some collectionTime, some julianDate, some azF, some azInt =>
          match decodeAzimuth azF azInt with
          | none => none
          | some azimuth =>
            match byteAt view (start + 22), getFloat32 view (start + 24) with
            | some elevationNum, some elevationAngle =>
              if JsF.ltb elevationAngle (.num (-10)) || JsF.ltb (.num 90) elevationAngle then
                none
              else
                match getUint16 view (start + 30) with
                | some dataBlockCount =>
                  if dataBlockCount < 1 ∨ 15 < dataBlockCount then none
                  else
                    match readBlockPointers view (start + 32) dataBlockCount with
                    | none => none
                    | some ptrs =>
                      let vm := ptrs.foldl (processBlock view start) (0, [])
                      if vm.2 = [] then none
                      else
                        some { stationId := stripZeros [id0, id1, id2, id3]
                               azimuth := azimuth
                               elevation := elevationAngle
                               sweepNumber := elevationNum
                               moments := vm.2
                               vcp := vm.1
                               datetime :=
                                 if 0 < julianDate then
                                   some ((julianDate - 1) * 86400000 + collectionTime)
                                 else none }
                | none => none
            | _, _ => none
        | _, _, _, _ => none
    | _, _, _, _ => none

/-- Mutable parsing state of the `NexradLevel2` instance during `_parse`:
the sweep-keyed ray accumulator `raysBySweep` (a JS object modelled as an
association list with unique keys) and the `_stationId` / `_datetime` /
`_vcp` fields. -/
structure DecState where
  raysBySweep : List (Nat × List Ray)
  stationId : List Nat
  datetime : Option Nat
  vcp : Nat
deriving DecidableEq

/-- `raysBySweep[sweepNum].push(ray)` (creating the key when absent; a JS
object with integer-like keys is modelled as an association list, which is
sorted by key before use). -/
def pushRay : List (Nat × List Ray) → Nat → Ray → List (Nat × List Ray)
  | [], k, r => [(k, [r])]
  | (k0, rs) :: rest, k, r =>
    if k0 = k then (k0, rs ++ [r]) :: rest else (k0, rs) :: pushRay rest k r

/-- The state updates of `_parseMessages` when a ray is accepted (source
lines 342–348): push the ray under its sweep number, then update `_vcp`
when the ray's VCP is positive, `_datetime` when still unset, and
`_stationId` whenever the ray's id is non-empty. -/
def noteRay (st : DecState) (ray : Ray) : DecState :=
  let st1 := { st with raysBySweep := pushRay st.raysBySweep ray.sweepNumber ray }
  let st2 := if 0 < ray.vcp then { st1 with vcp := ray.vcp } else st1
  let st3 := if st2.datetime = none ∧ ray.datetime ≠ none then
    { st2 with datetime := ray.datetime } else st2
  if ray.stationId ≠ [] then { st3 with stationId := ray.stationId } else st3

/-- The decoded message size in bytes at scan position `pos`
(`getUint16(pos + 12) * 2`, big-endian, read after the loop's bound check). -/
def msgSizeAt (seg : List Nat) (pos : Nat) : Nat :=
  (byteAtD seg (pos + 12) * 256 + byteAtD seg (pos + 13)) * 2

/-- The message dispatch of `_parseMessages`: a message of type 31 is sent to
`_parseMessage31` (its body starting after the 12-byte CTM field and the
16-byte header) and, when accepted, recorded by `noteRay`; every other type
leaves the state unchanged. -/
def dispatchMessage (seg : List Nat) (st : DecState) (pos msgSizeBytes : Nat) : DecState :=
  if byteAtD seg (pos + 15) = 31 then
    match parseMessage31 seg (pos + 28) (msgSizeBytes - 16) with
    | some ray => noteRay st ray
    | none => st
  else st

/-- The `while` loop of `_parseMessages`, with explicit fuel.  Each iteration
advances `pos` by at least one byte, so the position strictly increases and
fuel `seg.length` (the value used by `parseMessages`) can never run out while
the loop guard `pos + 28 < seg.length` still holds. -/
def parseMessagesLoop : Nat → List Nat → DecState → Nat → DecState
  | 0, _, st, _ => st
  | fuel + 1, seg, st, pos =>
    if pos + 28 < seg.length then
      let msgSizeBytes := msgSizeAt seg pos
      if msgSizeBytes < 16 ∨ 20000 < msgSizeBytes then
        parseMessagesLoop fuel seg st (pos + 1)
      else
        parseMessagesLoop fuel seg (dispatchMessage seg st pos msgSizeBytes)
          (pos + 12 + msgSizeBytes)
    else st

/-- `NexradLevel2._parseMessages(data, raysBySweep)`. -/
def parseMessages (seg : List Nat) (st : DecState) : DecState :=
  parseMessagesLoop seg.length seg st 0

/-- The type of the external Bzip2 routine (`seekBzip.decode`), which is not
part of this repository.  Modelled from the spec: a black-box function from
compressed bytes to decompressed bytes or failure (`none` models the thrown
exception that `_decompressChunk` catches). -/
def DecompressRoutine : Type := List Nat → Option (List Nat)

/-- `NexradLevel2._decompressChunk(chunk)`: bytes that do not start with the
Bzip2 magic `'B','Z'` (0x42 0x5A) are returned unchanged; bytes that do are
handed to the external routine, a failure becoming `none` (the source logs
and returns `null`). -/
def decompressChunk (bz : DecompressRoutine) (chunk : List Nat) : Option (List Nat) :=
  if chunk.get? 0 = some 66 ∧ chunk.get? 1 = some 90 then bz chunk
  else some chunk

/-- The `while` loop of `_parseCompressedRecords`, with explicit fuel.  Each
iteration advances `pos` by at least five bytes, so fuel `data.length` (the
value used by `parseCompressedRecords`) can never run out while the loop
guard `pos + 4 < data.length` still holds. -/
def parseRecordsLoop (bz : DecompressRoutine) : Nat → List Nat → DecState → Nat → DecState
  | 0, _, st, _ => st
  | fuel + 1, data, st, pos =>
    if pos + 4 < data.length then
      match getInt32 data pos with
      | none => st
      | some recordSize =>
        if recordSize = 0 then st
        else
          let actualSize := recordSize.natAbs
          if data.length < pos + 4 + actualSize then st
          else
            let chunk := (data.drop (pos + 4)).take actualSize
            let decompressed := if 0 < recordSize then decompressChunk bz chunk else some chunk
            let st' := match decompressed with
              | some seg => parseMessages seg st
              | none => st
            parseRecordsLoop bz fuel data st' (pos + 4 + actualSize)
    else st

/-- `NexradLevel2._parseCompressedRecords(compressedData)` up to (but not
including) the final sort of the sweep keys. -/
def parseCompressedRecords (bz : DecompressRoutine) (data : List Nat) (st : DecState) :
    DecState :=
  parseRecordsLoop bz data.length data st 0

/-- `raysBySweep[k]` for a key produced by `Object.keys`. -/
def lookupRays : List (Nat × List Ray) → Nat → List Ray
  | [], _ => []
  | (k, rs) :: rest, key => if k = key then rs else lookupRays rest key

/-- The tail of `_parseCompressedRecords`: sweep keys sorted ascending, each
mapped to its ray list (`this._rays`). -/
def volumeRays (st : DecState) : List (List Ray) :=
  (List.insertionSort (· ≤ ·) (st.raysBySweep.map Prod.fst)).map (lookupRays st.raysBySweep)

/-- Per-sweep metadata entry (`_sweepsData` element). -/
structure SweepMeta where
  index : Nat
  elevation : JsF
  rayCount : Nat
deriving DecidableEq

/-- `parseFloat(avg.toFixed(2))`: round a finite value to 2 decimals
(ties away from zero toward the larger candidate, per the `toFixed`
specification); NaN and the infinities survive the round-trip unchanged. -/
def toFixed2 : JsF → JsF
  | .num q => .num ((⌊q * 100 + 1 / 2⌋ : ℤ) / 100 : ℚ)
  | x => x

/-- `NexradLevel2._buildSweepMetadata()`: one entry per non-empty sweep,
keeping the sweep's position in `_rays` as `index` and averaging the ray
elevations with JS float semantics. -/
def buildSweepMetadata (rays : List (List Ray)) : List SweepMeta :=
  rays.enum.filterMap fun p =>
    if p.2.isEmpty then none
    else
      let s := p.2.foldl (fun acc r => JsF.add acc r.elevation) (JsF.num 0)
      some { index := p.1
             elevation := toFixed2 (JsF.div s (.num p.2.length))
             rayCount := p.2.length }

/-- The decoded volume: the externally visible state of a successfully
constructed `NexradLevel2`. -/
structure Volume where
  stationId : List Nat
  datetime : Option Nat
  vcp : Nat
  sweepsData : List SweepMeta
  rays : List (List Ray)
deriving DecidableEq

instance : Inhabited Volume := ⟨⟨[], none, 0, [], []⟩⟩

/-- `_parseVolumeHeader`: the datetime from the 24-byte volume header
(Julian day at offset 12, milliseconds at offset 14; day 0 leaves it unset). -/
def headerDatetime (buf : List Nat) : Option Nat :=
  let julianDate := (getUint16 buf 12).getD 0
  let ms := (getUint32 buf 14).getD 0
  if 0 < julianDate then some ((julianDate - 1) * 86400000 + ms) else none

/-- The parse state right after `_parseVolumeHeader` (station bytes 20–23
with NULs stripped, header datetime, no rays, VCP 0). -/
def initState (buf : List Nat) : DecState :=
  { raysBySweep := []
    stationId := stripZeros [byteAtD buf 20, byteAtD buf 21, byteAtD buf 22, byteAtD buf 23]
    datetime := headerDatetime buf
    vcp := 0 }

/-- The full `_parse` accumulation: header state threaded through
`_parseCompressedRecords` over the bytes after the 24-byte volume header. -/
def fullParse (bz : DecompressRoutine) (buf : List Nat) : DecState :=
  parseCompressedRecords bz (buf.drop 24) (initState buf)

/-- The `NexradLevel2` constructor on an `ArrayBuffer`: `Except.error`
models the thrown `Error`s ("File too small" from `_parse`, "File contains
no valid radar data" from the constructor's final check). -/
def parseVolume (bz : DecompressRoutine) (buf : List Nat) : Except String Volume :=
  if buf.length < 24 then .error "File too small"
  else
    let st := fullParse bz buf
    let rays := volumeRays st
    if rays = [] ∨ rays.all List.isEmpty then .error "File contains no valid radar data"
    else
      .ok { stationId := st.stationId
            datetime := st.datetime
            vcp := st.vcp
            sweepsData := buildSweepMetadata rays
            rays := rays }

/-- `getMomentsForSweep` body on one sweep's rays: the set of moment keys in
first-appearance order, then sorted by name (JS `Array.from(set).sort()`). -/
def sweepMoments (sweepRays : List Ray) : List MomentName :=
  let collected := sweepRays.foldl
    (fun acc r => r.moments.foldl (fun acc2 p => if p.1 ∈ acc2 then acc2 else acc2 ++ [p.1]) acc)
    []
  List.insertionSort (fun a b => momentRank a ≤ momentRank b) collected

/-- `NexradLevel2.getMomentsForSweep(sweepIndex)` (the index is a JS number,
modelled as an integer so that the `sweepIndex < 0` branch is faithful). -/
def getMomentsForSweep (vol : Volume) (sweepIndex : Int) : Except String (List MomentName) :=
  if sweepIndex < 0 ∨ (vol.rays.length : Int) ≤ sweepIndex then
    .error "Sweep index out of range"
  else .ok (sweepMoments (vol.rays.getD sweepIndex.toNat []))

/-- The result record of `getData`. -/
structure GetDataResult where
  data : List JsF
  azimuths : List ℚ
  ranges : List ℚ
  elevation : JsF
  dims : Nat × Nat
deriving DecidableEq

/-- The row the `getData` copy loop produces for one ray: the ray's moment
samples truncated to the representative's gate count and padded with NaN
(the `Float32Array` is NaN-filled before `set`), or a full NaN row when the
ray lacks the moment. -/
def getDataRow (momentKey : MomentName) (numGates : Nat) (ray : Ray) : List JsF :=
  match findMoment ray.moments momentKey with
  | some rm =>
    let limit := min rm.data.length numGates
    rm.data.take limit ++ List.replicate (numGates - limit) JsF.nan
  | none => List.replicate numGates JsF.nan

/-- `NexradLevel2.getData(sweepIndex, moment)`. -/
def getData (vol : Volume) (sweepIndex : Int) (momentKey : MomentName) :
    Except String GetDataResult :=
  if sweepIndex < 0 ∨ (vol.rays.length : Int) ≤ sweepIndex then
    .error "Sweep index out of range"
  else
    let sweepRays := vol.rays.getD sweepIndex.toNat []
    if momentKey ∉ sweepMoments sweepRays then
      .error "Moment not available in sweep"
    else
      match sweepRays.findSome?
          (fun r => (findMoment r.moments momentKey).map (fun mi => (r, mi))) with
      | none => .error "Moment found in index but no ray contains data."
      | some (_, momentInfo) =>
        let numGates := momentInfo.numGates
        .ok { data := (sweepRays.map (getDataRow momentKey numGates)).flatten
              azimuths := sweepRays.map Ray.azimuth
              ranges := (List.range numGates).map
                (fun (i : Nat) => (i : ℚ) * momentInfo.gateWidth + momentInfo.firstGate)
              elevation := (vol.sweepsData.getD sweepIndex.toNat ⟨0, .nan, 0⟩).elevation
              dims := (sweepRays.length, numGates) }

/-- `arr[i]` as the resampler reads azimuth values (every reachable access is
in bounds, see the guards in the theorems). -/
def valAt (arr : List ℚ) (i : Nat) : ℚ := arr.getD i 0

/-- The loop of the source's `binarySearch(arr, val)`, with explicit fuel
(`hi - lo` shrinks by at least one per iteration, so fuel `arr.length`
always suffices for the initial call `lo = 0, hi = arr.length`).
`(lo + hi) >>> 1` is natural-number halving for all reachable sizes. -/
def binarySearchLoop (arr : List ℚ) (v : ℚ) : Nat → Nat → Nat → Nat
  | 0, lo, _ => lo
  | fuel + 1, lo, hi =>
    if lo < hi then
      let mid := (lo + hi) / 2
      if valAt arr mid ≤ v then binarySearchLoop arr v fuel (mid + 1) hi
      else binarySearchLoop arr v fuel lo mid
    else lo

/-- `binarySearch(arr, val)`: the upper-bound insertion point. -/
def binarySearch (arr : List ℚ) (v : ℚ) : Nat :=
  binarySearchLoop arr v arr.length 0 arr.length

/-- The comparator order realized by `azimuths.sort((a, b) => azimuths[a] -
azimuths[b])` on the index array: JS `Array.prototype.sort` is stable, so the
result is exactly the lexicographic (value, original index) order. -/
def azLex (az : List ℚ) (a b : Nat) : Prop :=
  valAt az a < valAt az b ∨ (valAt az a = valAt az b ∧ a ≤ b)

instance (az : List ℚ) : DecidableRel (azLex az) := fun a b => by
  unfold azLex; infer_instance

instance (az : List ℚ) : IsTotal Nat (azLex az) := by
  constructor
  intro a b
  rcases lt_trichotomy (valAt az a) (valAt az b) with h | h | h
  · exact Or.inl (Or.inl h)
  · rcases Nat.le_total a b with h2 | h2
    · exact Or.inl (Or.inr ⟨h, h2⟩)
    · exact Or.inr (Or.inr ⟨h.symm, h2⟩)
  · exact Or.inr (Or.inl h)

instance (az : List ℚ) : IsTrans Nat (azLex az) := by
  constructor
  intro a b c hab hbc
  rcases hab with h1 | ⟨e1, l1⟩
  · rcases hbc with h2 | ⟨e2, _⟩
    · exact Or.inl (h1.trans h2)
    · exact Or.inl (e2 ▸ h1)
  · rcases hbc with h2 | ⟨e2, l2⟩
    · exact Or.inl (e1 ▸ h2)
    · exact Or.inr ⟨e1.trans e2, l1.trans l2⟩

/-- `sortedAzIndices`: the ray indices sorted by azimuth value
(stably, hence exactly by `azLex`). -/
def sortedAzIndices (az : List ℚ) : List Nat :=
  List.insertionSort (azLex az) (List.range az.length)

/-- `azSorted`: the azimuth values in sorted order. -/
def azSorted (az : List ℚ) : List ℚ := (sortedAzIndices az).map (valAt az)

/-- The azimuth-selection of the resampler's inner loop (source lines 32–34):
binary search on the sorted azimuths, take the insertion point minus one
(wrapping to the last element when the point is 0), and map the sorted
position back to the original ray index. -/
def chosenAzIdx (az : List ℚ) (pixelAz : ℚ) : Nat :=
  let p := binarySearch (azSorted az) pixelAz
  let k := if p = 0 then (azSorted az).length - 1 else p - 1
  (sortedAzIndices az).getD k 0

/-- The range-gate selection of the resampler's inner loop (source lines
37–38): insertion point minus one, clamped into `[0, ranges.length - 1]`
(natural subtraction realizes the `Math.max(0, ...)` clamp). -/
def chosenRangeIdx (ranges : List ℚ) (pixelRange : ℚ) : Nat :=
  min (binarySearch ranges pixelRange - 1) (ranges.length - 1)

/-- The per-pixel body of `polarToCartesian` after the geometric mapping
(source lines 27–41), taking the pixel's computed azimuth and range as
inputs (the `atan2`/`sqrt` geometry that produces them is transcendental and
outside the decoder's data path).  `none` is a pixel left as NaN by the
range-bounds skip; otherwise the selected polar sample is returned. -/
def samplePixel (data : List JsF) (azimuths ranges : List ℚ) (pixelAz pixelRange : ℚ) :
    Option JsF :=
  let minRange := ranges.getD 0 0
  let maxRange := ranges.getD (ranges.length - 1) 0
  if maxRange < pixelRange ∨ pixelRange < minRange then none
  else
    let azIdx := chosenAzIdx azimuths pixelAz
    let rangeIdx := chosenRangeIdx ranges pixelRange
    some ((data.getD (azIdx * ranges.length + rangeIdx) JsF.nan))

/-- A trivial decompression routine for concrete test buffers whose segments
are stored uncompressed (it is never invoked on them). -/
def bz0 : DecompressRoutine := fun _ => none

/-- A synthetic 92-byte type-31 message body: station id, collection time
100 ms, Julian day 1, the given azimuth/elevation float bytes, sweep number,
one block pointer (offset 60) to a `'D'` moment block with the given
3-byte name, first gate 1000 m, gate spacing 250 m, 8-bit samples with
scale 1.0 and offset 0.0, and the given gate bytes (padded to even length). -/
def mkBody (station azB : List Nat) (sweepNum : Nat) (elevB name gates : List Nat) :
    List Nat :=
  station ++ [0, 0, 0, 100] ++ [0, 1] ++ [0, 0] ++ azB ++ List.replicate 6 0 ++
  [sweepNum, 0] ++ elevB ++ [0, 0] ++ [0, 1] ++ [0, 0, 0, 60] ++ List.replicate 24 0 ++
  [68] ++ name ++ List.replicate 4 0 ++ [0, gates.length] ++ [3, 232] ++ [0, 250] ++
  List.replicate 5 0 ++ [8] ++ [63, 128, 0, 0] ++ List.replicate 4 0 ++ gates ++
  List.replicate ((88 + gates.length) % 2) 0

/-- A scanner record around a message body: 12-byte CTM field, 16-byte
message header (size in half-words big-endian, type 31), then the body. -/
def mkMessage (body : List Nat) : List Nat :=
  let hw := (16 + body.length) / 2
  List.replicate 12 0 ++ [hw / 256, hw % 256, 0, 31] ++ List.replicate 12 0 ++ body

/-- The big-endian two's-complement encoding of `-len` as an `Int32`
(a negative record size: an uncompressed segment of length `len`). -/
def int32NegBE (len : Nat) : List Nat :=
  let u := 2 ^ 32 - len
  [u / 16777216 % 256, u / 65536 % 256, u / 256 % 256, u % 256]

/-- A complete synthetic volume file: 24-byte header (Julian day 0, station
`KDVN`), then a single uncompressed record holding the given message
bodies. -/
def mkBuffer (bodies : List (List Nat)) : List Nat :=
  let segment := (bodies.map mkMessage).flatten
  List.replicate 12 0 ++ [0, 0] ++ List.replicate 6 0 ++ [75, 68, 86, 78] ++
  int32NegBE segment.length ++ segment

/-- Float32 bytes of 100.0 (a valid azimuth). -/
def az100B : List Nat := [66, 200, 0, 0]

/-- Float32 bytes of 5.0 (a valid elevation). -/
def elev5B : List Nat := [64, 160, 0, 0]

/-- Float32 bytes of a quiet NaN (0x7FC00000). -/
def elevNaNB : List Nat := [127, 192, 0, 0]

/-- Three one-ray sweeps arriving in raw order 3, 1, 2. -/
def buf312 : List Nat := mkBuffer
  [mkBody [75, 68, 86, 78] az100B 3 elev5B [82, 69, 70] [2, 3, 4],
   mkBody [75, 68, 86, 78] az100B 1 elev5B [82, 69, 70] [2, 3, 4],
   mkBody [75, 68, 86, 78] az100B 2 elev5B [82, 69, 70] [2, 3, 4]]

/-- One ray whose elevation float bytes decode to NaN. -/
def bufElevNaN : List Nat := mkBuffer
  [mkBody [75, 68, 86, 78] az100B 1 elevNaNB [82, 69, 70] [2, 3, 4]]

/-- Two rays in the same sweep carrying different station ids
(`KAAA` then `KBBB`). -/
def bufTwoStations : List Nat := mkBuffer
  [mkBody [75, 65, 65, 65] az100B 1 elev5B [82, 69, 70] [2, 3, 4],
   mkBody [75, 66, 66, 66] az100B 1 elev5B [82, 69, 70] [2, 3, 4]]


/-- The net effect of the two-step azimuth fallback of `_parseMessage31`
(source lines 368-385): the IEEE-float value wins when it is a number in
`[0, 360)`; otherwise the scaled-integer reading `azInt / 8` is used when it
is in `[0, 360)`; otherwise the ray is rejected. -/
theorem decodeAzimuth_eq (az : JsF) (azInt : Nat) :
    decodeAzimuth az azInt =
      (match az with
       | .num q =>
         if 0 ≤ q ∧ q < 360 then some q
         else if 0 ≤ (azInt : ℚ) / 8 ∧ (azInt : ℚ) / 8 < 360 then some ((azInt : ℚ) / 8)
         else none
       | _ =>
         if 0 ≤ (azInt : ℚ) / 8 ∧ (azInt : ℚ) / 8 < 360 then some ((azInt : ℚ) / 8)
         else none) := by
  have h8 : (0 : ℚ) ≤ (azInt : ℚ) / 8 := by positivity
  have h8n : ¬((azInt : ℚ) / 8 < 0) := not_lt.mpr h8
  cases az with
  | num q =>
    simp only [decodeAzimuth, JsF.ltb, JsF.geb, Bool.or_eq_true, decide_eq_true_eq]
    by_cases hq : q < 0 ∨ 360 ≤ q
    · have hnq : ¬(0 ≤ q ∧ q < 360) := by
        intro hc; rcases hq with h | h <;> linarith [hc.1, hc.2]
      by_cases ha : 360 ≤ (azInt : ℚ) / 8
      · simp [hq, hnq, ha, h8n, not_lt.mpr ha]
      · simp [hq, hnq, ha, h8n, h8, not_le.mp ha]
    · push_neg at hq
      have hvq : 0 ≤ q ∧ q < 360 := ⟨hq.1, hq.2⟩
      simp [not_lt.mpr hq.1, not_le.mpr hq.2, hvq]
  | posInf =>
    simp only [decodeAzimuth, JsF.ltb, JsF.geb, Bool.or_eq_true, decide_eq_true_eq]
    by_cases ha : 360 ≤ (azInt : ℚ) / 8
    · simp [ha, h8n, h8, not_lt.mpr ha]
    · simp [ha, h8n, h8, not_le.mp ha]
  | negInf =>
    simp only [decodeAzimuth, JsF.ltb, JsF.geb, Bool.or_eq_true, decide_eq_true_eq]
    by_cases ha : 360 ≤ (azInt : ℚ) / 8
    · simp [ha, h8n, h8, not_lt.mpr ha]
    · simp [ha, h8n, h8, not_le.mp ha]
  | nan =>
    simp only [decodeAzimuth, JsF.ltb, JsF.geb, Bool.or_eq_true, decide_eq_true_eq]
    by_cases ha : 360 ≤ (azInt : ℚ) / 8
    · simp [ha, h8n, h8, not_lt.mpr ha]
    · simp [ha, h8n, h8, not_le.mp ha]

/-- Every accepted azimuth is in `[0, 360)`. -/
theorem decodeAzimuth_range (az : JsF) (azInt : Nat) (q : ℚ)
    (h : decodeAzimuth az azInt = some q) : 0 ≤ q ∧ q < 360 := by
  rw [decodeAzimuth_eq] at h
  cases az with
  | num q' =>
    simp only at h
    split at h
    · rename_i hc; injection h with h; subst h; exact hc
    · split at h
      · rename_i hc; injection h with h; subst h; exact hc
      · exact absurd h (by simp)
  | posInf =>
    simp only at h
    split at h
    · rename_i hc; injection h with h; subst h; exact hc
    · exact absurd h (by simp)
  | negInf =>
    simp only at h
    split at h
    · rename_i hc; injection h with h; subst h; exact hc
    · exact absurd h (by simp)
  | nan =>
    simp only at h
    split at h
    · rename_i hc; injection h with h; subst h; exact hc
    · exact absurd h (by simp)

/-- A value the elevation-range guard lets through is either NaN or a
number in `[-10, 90]`. -/
theorem elevation_guard_ok (e : JsF)
    (h : (JsF.ltb e (.num (-10)) || JsF.ltb (.num 90) e) = false) :
    e = .nan ∨ ∃ q, e = .num q ∧ -10 ≤ q ∧ q ≤ 90 := by
  cases e with
  | num q =>
    right
    simp only [JsF.ltb, Bool.or_eq_false_iff, decide_eq_false_iff_not, not_lt] at h
    exact ⟨q, rfl, h.1, h.2⟩
  | posInf => simp [JsF.ltb] at h
  | negInf => simp [JsF.ltb] at h
  | nan => exact Or.inl rfl

/-- Inversion of `_parseMessage31` on an accepted ray: the azimuth came from
the fallback policy applied to the 4 bytes at `start + 12`, the elevation
passed the range guard, and at least one recognized moment was recorded. -/
theorem parseMessage31_some (view : List Nat) (start ml : Nat) (ray : Ray)
    (h : parseMessage31 view start ml = some ray) :
    (∃ azF azInt, decodeAzimuth azF azInt = some ray.azimuth ∧
        getFloat32 view (start + 12) = some azF ∧
        getUint32 view (start + 12) = some azInt) ∧
    (JsF.ltb ray.elevation (.num (-10)) || JsF.ltb (.num 90) ray.elevation) = false ∧
    ray.moments ≠ [] := by
  rw [parseMessage31] at h
  repeat (split at h <;> try exact Option.noConfusion h)
  all_goals
    rw [ite_eq_iff] at h
    rcases h with ⟨hc, h⟩ | ⟨hc, h⟩
    · exact Option.noConfusion h
    · simp only [Option.some.injEq] at h
      subst h
      exact ⟨⟨_, _, by assumption, by assumption, by assumption⟩,
        by rw [← Bool.not_eq_true]; assumption, by simpa using hc⟩

/-- "This ray is an output of `_parseMessage31`" — the only way rays enter
the accumulator. -/
def RayFromMsg (r : Ray) : Prop :=
  ∃ view start ml, parseMessage31 view start ml = some r

/-- Every ray stored in the accumulator is an accepted `_parseMessage31`
output, every key holds a non-empty list, the keys are distinct, and each
ray sits under its own sweep number. -/
def MapWF (m : List (Nat × List Ray)) : Prop :=
  (m.map Prod.fst).Nodup ∧
  ∀ p ∈ m, p.2 ≠ [] ∧ ∀ r ∈ p.2, RayFromMsg r ∧ r.sweepNumber = p.1

/-- The invariant carried through the scanning loops. -/
def StateOK (st : DecState) : Prop := MapWF st.raysBySweep

theorem pushRay_keys (m : List (Nat × List Ray)) (k : Nat) (r : Ray) :
    (pushRay m k r).map Prod.fst =
      if k ∈ m.map Prod.fst then m.map Prod.fst else m.map Prod.fst ++ [k] := by
  induction m with
  | nil => simp [pushRay]
  | cons p rest ih =>
    obtain ⟨k0, rs⟩ := p
    by_cases hk : k0 = k
    · subst hk
      simp [pushRay]
    · simp only [pushRay, if_neg hk, List.map_cons, ih]
      by_cases hmem : k ∈ rest.map Prod.fst <;>
        simp [hmem, Ne.symm hk, List.mem_cons]

theorem mem_pushRay_ray (m : List (Nat × List Ray)) (k : Nat) (r : Ray) :
    ∀ p ∈ pushRay m k r, ∀ r' ∈ p.2,
      (∃ q ∈ m, r' ∈ q.2 ∧ q.1 = p.1) ∨ (r' = r ∧ p.1 = k) := by
  induction m with
  | nil =>
    intro p hp r' hr'
    simp only [pushRay, List.mem_singleton] at hp
    subst hp
    simp only [List.mem_singleton] at hr'
    exact Or.inr ⟨hr', rfl⟩
  | cons q rest ih =>
    obtain ⟨k0, rs⟩ := q
    intro p hp r' hr'
    by_cases hk : k0 = k
    · subst hk
      simp only [pushRay, eq_self_iff_true, if_true, List.mem_cons] at hp
      rcases hp with hp | hp
      · subst hp
        simp only [List.mem_append, List.mem_singleton] at hr'
        rcases hr' with h | h
        · exact Or.inl ⟨(k0, rs), by simp, h, rfl⟩
        · exact Or.inr ⟨h, rfl⟩
      · exact Or.inl ⟨p, List.mem_cons_of_mem _ hp, hr', rfl⟩
    · simp only [pushRay, if_neg hk, List.mem_cons] at hp
      rcases hp with hp | hp
      · subst hp
        exact Or.inl ⟨(k0, rs), by simp, hr', rfl⟩
      · rcases ih p hp r' hr' with ⟨q, hq, h1, h2⟩ | h
        · exact Or.inl ⟨q, List.mem_cons_of_mem _ hq, h1, h2⟩
        · exact Or.inr h

theorem pushRay_nonempty (m : List (Nat × List Ray)) (k : Nat) (r : Ray)
    (h : ∀ p ∈ m, p.2 ≠ []) : ∀ p ∈ pushRay m k r, p.2 ≠ [] := by
  induction m with
  | nil =>
    intro p hp
    simp only [pushRay, List.mem_singleton] at hp
    subst hp
    simp
  | cons q rest ih =>
    obtain ⟨k0, rs⟩ := q
    intro p hp
    by_cases hk : k0 = k
    · subst hk
      simp only [pushRay, eq_self_iff_true, if_true, List.mem_cons] at hp
      rcases hp with hp | hp
      · subst hp; simp
      · exact h p (List.mem_cons_of_mem _ hp)
    · simp only [pushRay, if_neg hk, List.mem_cons] at hp
      rcases hp with hp | hp
      · subst hp; exact h (k0, rs) (by simp)
      · exact ih (fun p' hp' => h p' (List.mem_cons_of_mem _ hp')) p hp

theorem MapWF_pushRay (m : List (Nat × List Ray)) (r : Ray)
    (hwf : MapWF m) (hr : RayFromMsg r) :
    MapWF (pushRay m r.sweepNumber r) := by
  obtain ⟨hnodup, hmem⟩ := hwf
  refine ⟨?_, ?_⟩
  · rw [pushRay_keys]
    by_cases hk : r.sweepNumber ∈ m.map Prod.fst
    · simpa [hk] using hnodup
    · simp only [hk, if_false]
      refine List.Nodup.append hnodup (List.nodup_singleton _) ?_
      intro a ha hb
      simp only [List.mem_singleton] at hb
      subst hb
      exact hk ha
  · intro p hp
    refine ⟨pushRay_nonempty m _ r (fun q hq => (hmem q hq).1) p hp, ?_⟩
    intro r' hr'
    rcases mem_pushRay_ray m _ r p hp r' hr' with ⟨q, hq, h1, h2⟩ | ⟨he, hpk⟩
    · obtain ⟨hf, hs⟩ := (hmem q hq).2 r' h1
      exact ⟨hf, h2 ▸ hs⟩
    · subst he
      exact ⟨hr, hpk.symm⟩

theorem noteRay_raysBySweep (st : DecState) (ray : Ray) :
    (noteRay st ray).raysBySweep = pushRay st.raysBySweep ray.sweepNumber ray := by
  simp only [noteRay]
  split <;> split <;> split <;> rfl

theorem noteRay_datetime (st : DecState) (ray : Ray) :
    (noteRay st ray).datetime =
      if st.datetime = none ∧ ray.datetime ≠ none then ray.datetime else st.datetime := by
  simp only [noteRay]
  split <;> split <;> split <;> simp_all

theorem noteRay_stationId (st : DecState) (ray : Ray) :
    (noteRay st ray).stationId =
      if ray.stationId ≠ [] then ray.stationId else st.stationId := by
  simp only [noteRay]
  split <;> split <;> split <;> simp_all

theorem StateOK_noteRay (st : DecState) (ray : Ray)
    (h : StateOK st) (hr : RayFromMsg ray) : StateOK (noteRay st ray) := by
  unfold StateOK
  rw [noteRay_raysBySweep]
  exact MapWF_pushRay _ _ h hr

theorem StateOK_dispatchMessage (seg : List Nat) (st : DecState) (pos n : Nat)
    (h : StateOK st) : StateOK (dispatchMessage seg st pos n) := by
  unfold dispatchMessage
  split
  · split
    · next ray heq => exact StateOK_noteRay st ray h ⟨seg, pos + 28, n - 16, heq⟩
    · exact h
  · exact h

theorem StateOK_parseMessagesLoop (fuel : Nat) (seg : List Nat) (st : DecState) (pos : Nat)
    (h : StateOK st) : StateOK (parseMessagesLoop fuel seg st pos) := by
  induction fuel generalizing st pos with
  | zero => exact h
  | succ n ih =>
    simp only [parseMessagesLoop]
    split
    · split
      · exact ih st (pos + 1) h
      · exact ih _ _ (StateOK_dispatchMessage seg st pos _ h)
    · exact h

theorem StateOK_forwardSeg (st : DecState) (h : StateOK st) (o : Option (List Nat)) :
    StateOK (match o with | some seg => parseMessages seg st | none => st) := by
  cases o with
  | none => exact h
  | some seg => exact StateOK_parseMessagesLoop _ _ st 0 h

theorem StateOK_parseRecordsLoop (bz : DecompressRoutine) (fuel : Nat) (data : List Nat)
    (st : DecState) (pos : Nat) (h : StateOK st) :
    StateOK (parseRecordsLoop bz fuel data st pos) := by
  induction fuel generalizing st pos with
  | zero => exact h
  | succ n ih =>
    simp only [parseRecordsLoop]
    split
    · split
      · exact h
      · split
        · exact h
        · split
          · exact h
          · exact ih _ _ (StateOK_forwardSeg st h _)
    · exact h

theorem StateOK_fullParse (bz : DecompressRoutine) (buf : List Nat) :
    StateOK (fullParse bz buf) := by
  unfold fullParse parseCompressedRecords
  exact StateOK_parseRecordsLoop bz _ _ _ 0 ⟨by simp [initState], by simp [initState]⟩

/-- Any ray found through `lookupRays` sits in some cell of the map under
the looked-up key. -/
theorem mem_lookupRays (m : List (Nat × List Ray)) (k : Nat) (r : Ray)
    (h : r ∈ lookupRays m k) : ∃ p ∈ m, r ∈ p.2 ∧ p.1 = k := by
  induction m with
  | nil => simp [lookupRays] at h
  | cons q rest ih =>
    obtain ⟨k0, rs⟩ := q
    by_cases hk : k0 = k
    · subst hk
      simp only [lookupRays, if_pos rfl] at h
      exact ⟨(k0, rs), by simp, h, rfl⟩
    · simp only [lookupRays, if_neg hk] at h
      obtain ⟨p, hp, h1, h2⟩ := ih h
      exact ⟨p, List.mem_cons_of_mem _ hp, h1, h2⟩

/-- Every ray of every sweep of `volumeRays` is an accepted
`_parseMessage31` output carrying its cell's sweep number. -/
theorem volumeRays_rays (st : DecState) (h : StateOK st) :
    ∀ cell ∈ volumeRays st, ∀ r ∈ cell, RayFromMsg r := by
  intro cell hcell r hr
  unfold volumeRays at hcell
  obtain ⟨k, _, hk⟩ := List.mem_map.mp hcell
  subst hk
  obtain ⟨p, hp, h1, _⟩ := mem_lookupRays _ _ _ hr
  exact ((h.2 p hp).2 r h1).1

/-- `MapWF` restricts to the tail. -/
theorem MapWF_tail (q : Nat × List Ray) (rest : List (Nat × List Ray))
    (h : MapWF (q :: rest)) : MapWF rest :=
  ⟨(List.nodup_cons.mp h.1).2, fun p hp => h.2 p (List.mem_cons_of_mem _ hp)⟩

/-- With distinct keys, looking up a stored key returns its cell. -/
theorem lookupRays_of_mem (m : List (Nat × List Ray)) (k : Nat) (rs : List Ray)
    (hnd : (m.map Prod.fst).Nodup) (h : (k, rs) ∈ m) : lookupRays m k = rs := by
  induction m with
  | nil => simp at h
  | cons q rest ih =>
    obtain ⟨k0, rs0⟩ := q
    rcases List.mem_cons.mp h with he | hm
    · injection he with h1 h2
      subst h1; subst h2
      simp [lookupRays]
    · have hk : k0 ≠ k := by
        intro he'
        subst he'
        have : k0 ∈ rest.map Prod.fst := List.mem_map.mpr ⟨(k0, rs), hm, rfl⟩
        exact (List.nodup_cons.mp (by simpa using hnd)).1 this
      simp only [lookupRays, if_neg hk]
      exact ih (by simpa using (List.nodup_cons.mp (by simpa using hnd)).2) hm

/-- A stored key's cell is non-empty and all its rays carry that key as
sweep number. -/
theorem lookupRays_cell (m : List (Nat × List Ray)) (k : Nat)
    (hwf : MapWF m) (hk : k ∈ m.map Prod.fst) :
    lookupRays m k ≠ [] ∧ ∀ r ∈ lookupRays m k, r.sweepNumber = k := by
  obtain ⟨p, hp, hfst⟩ := List.mem_map.mp hk
  obtain ⟨k', rs⟩ := p
  simp only at hfst
  subst hfst
  rw [lookupRays_of_mem m _ rs hwf.1 hp]
  exact ⟨(hwf.2 _ hp).1, fun r hr => ((hwf.2 _ hp).2 r hr).2⟩

/-- Sorting distinct keys ascending makes them strictly increasing by
position. -/
theorem sortedKeys_strict (keys : List Nat) (hnd : keys.Nodup) :
    ∀ (i j : Fin (List.insertionSort (· ≤ ·) keys).length), i < j →
      (List.insertionSort (· ≤ ·) keys).get i < (List.insertionSort (· ≤ ·) keys).get j := by
  have hs : List.Sorted (· ≤ ·) (List.insertionSort (· ≤ ·) keys) :=
    List.sorted_insertionSort _ _
  have hnd' : (List.insertionSort (· ≤ ·) keys).Nodup :=
    ((List.perm_insertionSort _ _).nodup_iff).mpr hnd
  intro i j hij
  exact lt_of_le_of_ne (List.pairwise_iff_get.mp hs i j hij)
    (List.pairwise_iff_get.mp hnd' i j hij)

/-- Index/`getD` access to the cells of `volumeRays`: the cells are indexed
by the sorted distinct sweep keys. -/
theorem volumeRays_cells (st : DecState) (h : StateOK st) :
    (∀ cell ∈ volumeRays st, cell ≠ [] ∧ ∀ r ∈ cell, ∀ r' ∈ cell,
        r.sweepNumber = r'.sweepNumber) ∧
    (∀ i j : Nat, i < j → j < (volumeRays st).length →
      ∀ r ∈ (volumeRays st).getD i [], ∀ r' ∈ (volumeRays st).getD j [],
        r.sweepNumber < r'.sweepNumber) := by
  have hkeys : ∀ k ∈ List.insertionSort (· ≤ ·) (st.raysBySweep.map Prod.fst),
      k ∈ st.raysBySweep.map Prod.fst :=
    fun k hk => (List.perm_insertionSort _ _).mem_iff.mp hk
  constructor
  · intro cell hcell
    obtain ⟨k, hk, hkc⟩ := List.mem_map.mp hcell
    subst hkc
    obtain ⟨hne, hnum⟩ := lookupRays_cell _ k h (hkeys k hk)
    exact ⟨hne, fun r hr r' hr' => (hnum r hr).trans (hnum r' hr').symm⟩
  · intro i j hij hj r hr r' hr'
    unfold volumeRays at hj hr hr'
    rw [List.length_map] at hj
    have hi : i < (List.insertionSort (· ≤ ·) (st.raysBySweep.map Prod.fst)).length :=
      hij.trans hj
    rw [List.getD_eq_getElem _ _ (by simpa using hij.trans hj)] at hr
    rw [List.getD_eq_getElem _ _ (by simpa using hj)] at hr'
    rw [List.getElem_map] at hr hr'
    have hki := List.getElem_mem (l := List.insertionSort (· ≤ ·) (st.raysBySweep.map Prod.fst))
      (n := i) (h := hi)
    have hkj := List.getElem_mem (l := List.insertionSort (· ≤ ·) (st.raysBySweep.map Prod.fst))
      (n := j) (h := hj)
    have h1 := (lookupRays_cell _ _ h (hkeys _ hki)).2 r hr
    have h2 := (lookupRays_cell _ _ h (hkeys _ hkj)).2 r' hr'
    rw [h1, h2]
    exact sortedKeys_strict _ h.1 ⟨i, hi⟩ ⟨j, hj⟩ hij

theorem indices_aux (g : Nat × List Ray → SweepMeta) (hg : ∀ p, (g p).index = p.1) :
    ∀ (cells : List (List Ray)) (n : Nat), (∀ c ∈ cells, ¬c.isEmpty) →
      (((List.enumFrom n cells).filterMap
          (fun p => if p.2.isEmpty then none else some (g p))).map SweepMeta.index) =
        List.range' n cells.length := by
  intro cells
  induction cells with
  | nil => intro n _; simp
  | cons c rest ih =>
    intro n h
    have hc : c.isEmpty = false := by
      rw [← Bool.not_eq_true]
      exact h c (by simp)
    simp only [List.enumFrom, List.filterMap_cons, hc, Bool.false_eq_true, if_false,
      List.map_cons, hg, List.length_cons, List.range'_succ]
    exact congrArg _ (ih (n + 1) (fun c' hc' => h c' (List.mem_cons_of_mem _ hc')))

/-- When every cell is non-empty (always true for `volumeRays` output),
`_buildSweepMetadata` keeps every sweep and numbers them 0, 1, 2, …. -/
theorem buildSweepMetadata_indices (cells : List (List Ray)) (h : ∀ c ∈ cells, c ≠ []) :
    (buildSweepMetadata cells).map SweepMeta.index = List.range cells.length := by
  have h' : ∀ c ∈ cells, ¬c.isEmpty := by
    intro c hc
    simpa [List.isEmpty_iff] using h c hc
  have := indices_aux
    (fun p => { index := p.1,
                elevation := toFixed2 (JsF.div
                  (p.2.foldl (fun acc r => JsF.add acc r.elevation) (JsF.num 0))
                  (.num p.2.length)),
                rayCount := p.2.length })
    (fun p => rfl) cells 0 h'
  rw [List.range_eq_range']
  exact this

/-- Projections of a successful decode. -/
theorem parseVolume_ok (bz : DecompressRoutine) (buf : List Nat) (vol : Volume)
    (h : parseVolume bz buf = .ok vol) :
    vol.rays = volumeRays (fullParse bz buf) ∧
    vol.sweepsData = buildSweepMetadata (volumeRays (fullParse bz buf)) ∧
    vol.stationId = (fullParse bz buf).stationId ∧
    vol.datetime = (fullParse bz buf).datetime := by
  simp only [parseVolume] at h
  split at h
  · exact Except.noConfusion h
  · split at h
    · exact Except.noConfusion h
    · injection h with h
      subst h
      exact ⟨rfl, rfl, rfl, rfl⟩

/-- Recover the `Except` success form from its `toOption` projection. -/
theorem eq_ok_of_toOption {α β : Type} (e : Except α β) (v : β)
    (h : e.toOption = some v) : e = .ok v := by
  cases e with
  | ok a => simp only [Except.toOption, Option.some.injEq] at h; rw [h]
  | error a => simp [Except.toOption] at h

set_option maxRecDepth 40000

/-- The parsed volume of the 3-sweep synthetic buffer. -/
def vol312 : Volume := (parseVolume bz0 buf312).toOption.getD default

/-- C1 (amended): for every ray of a successfully constructed volume the
azimuth is in `[0, 360)` and the azimuth bytes follow the float-then-
scaled-integer fallback policy exactly as claimed; the elevation, however,
is only guaranteed to be in `[-10, 90]` **or NaN** — the elevation guard
`elevationAngle < -10 || elevationAngle > 90` rejects only values that
compare outside the range, and NaN compares false on both sides. -/
theorem c1_angle_invariants :
    (∀ (bz : DecompressRoutine) (buf : List Nat) (vol : Volume),
      parseVolume bz buf = .ok vol →
      ∀ sweep ∈ vol.rays, ∀ ray ∈ sweep,
        (0 ≤ ray.azimuth ∧ ray.azimuth < 360) ∧
        (ray.elevation = .nan ∨ ∃ q, ray.elevation = .num q ∧ -10 ≤ q ∧ q ≤ 90)) ∧
    (∀ (az : JsF) (azInt : Nat),
      decodeAzimuth az azInt =
        (match az with
         | .num q =>
           if 0 ≤ q ∧ q < 360 then some q
           else if 0 ≤ (azInt : ℚ) / 8 ∧ (azInt : ℚ) / 8 < 360 then some ((azInt : ℚ) / 8)
           else none
         | _ =>
           if 0 ≤ (azInt : ℚ) / 8 ∧ (azInt : ℚ) / 8 < 360 then some ((azInt : ℚ) / 8)
           else none)) := by
  constructor
  · intro bz buf vol h sweep hsweep ray hray
    obtain ⟨hrays, -, -, -⟩ := parseVolume_ok bz buf vol h
    rw [hrays] at hsweep
    obtain ⟨view, start, ml, hm⟩ :=
      volumeRays_rays _ (StateOK_fullParse bz buf) sweep hsweep ray hray
    obtain ⟨⟨azF, azInt, hdec, -, -⟩, helev, -⟩ := parseMessage31_some view start ml ray hm
    exact ⟨decodeAzimuth_range _ _ _ hdec, elevation_guard_ok _ helev⟩
  · exact decodeAzimuth_eq

unseal Rat.mul Rat.add Rat.inv Rat.sub in
/-- C1 counterexample to the claim as stated: a complete synthetic file
whose single accepted ray has elevation NaN — the volume constructs
successfully, yet NaN is not in `[-10, 90]`. -/
theorem c1_counterexample :
    ((parseVolume bz0 bufElevNaN).toOption.map (fun v => v.rays.map (List.map Ray.elevation)))
      = some [[JsF.nan]] ∧
    ¬∃ q : ℚ, JsF.nan = JsF.num q ∧ -10 ≤ q ∧ q ≤ 90 := by
  refine ⟨by decide, ?_⟩
  rintro ⟨q, hq, -⟩
  exact JsF.noConfusion hq

unseal Rat.mul Rat.add Rat.inv Rat.sub in
/-- Witness for C1 at the concrete 3-sweep buffer. -/
theorem c1_witness :
    0 ≤ ((vol312.rays.getD 0 []).getD 0 default).azimuth ∧
    ((vol312.rays.getD 0 []).getD 0 default).azimuth < 360 := by
  have hok : parseVolume bz0 buf312 = .ok vol312 :=
    eq_ok_of_toOption _ _ (by decide)
  have hsweep : vol312.rays.getD 0 [] ∈ vol312.rays := by decide
  have hray : (vol312.rays.getD 0 []).getD 0 default ∈ vol312.rays.getD 0 [] := by decide
  exact (c1_angle_invariants.1 bz0 buf312 vol312 hok _ hsweep _ hray).1

unseal Rat.mul Rat.add Rat.inv Rat.sub in
/-- C4: the sweeps of a decoded volume are the distinct raw sweep numbers,
sorted ascending, assigned dense 0-based indices; raw order {3,1,2} yields
three sweeps indexed 0,1,2 holding raw numbers 1,2,3. -/
theorem c4_sweeps_sorted_dense :
    (∀ (bz : DecompressRoutine) (buf : List Nat) (vol : Volume),
      parseVolume bz buf = .ok vol →
      (∀ cell ∈ vol.rays, cell ≠ [] ∧ ∀ r ∈ cell, ∀ r' ∈ cell,
          r.sweepNumber = r'.sweepNumber) ∧
      (∀ i j : Nat, i < j → j < vol.rays.length →
        ∀ r ∈ vol.rays.getD i [], ∀ r' ∈ vol.rays.getD j [],
          r.sweepNumber < r'.sweepNumber) ∧
      vol.sweepsData.map SweepMeta.index = List.range vol.rays.length) ∧
    ((parseVolume bz0 buf312).toOption.map (fun v => v.rays.map (List.map Ray.sweepNumber))
        = some [[1], [2], [3]] ∧
     (parseVolume bz0 buf312).toOption.map (fun v => v.sweepsData.map SweepMeta.index)
        = some [0, 1, 2]) := by
  constructor
  · intro bz buf vol h
    obtain ⟨hrays, hmeta, -, -⟩ := parseVolume_ok bz buf vol h
    have hc := volumeRays_cells _ (StateOK_fullParse bz buf)
    rw [hrays, hmeta]
    exact ⟨hc.1, hc.2, buildSweepMetadata_indices _ (fun c hcm => (hc.1 c hcm).1)⟩
  · exact ⟨by decide, by decide⟩

unseal Rat.mul Rat.add Rat.inv Rat.sub in
/-- Witness for C4 at the concrete 3-sweep buffer. -/
theorem c4_witness :
    vol312.sweepsData.map SweepMeta.index = List.range vol312.rays.length := by
  have hok : parseVolume bz0 buf312 = .ok vol312 :=
    eq_ok_of_toOption _ _ (by decide)
  exact ((c4_sweeps_sorted_dense.1 bz0 buf312 vol312 hok).2.2)

/-- A standalone synthetic moment block: name `REF`, 3 gates, first gate
1000 m, spacing 250 m, 8-bit samples, scale 1.0, offset 0.0, gate bytes
2, 3, 4. -/
def momentBlock234 : List Nat :=
  [68, 82, 69, 70] ++ List.replicate 4 0 ++ [0, 3] ++ [3, 232] ++ [0, 250] ++
  List.replicate 5 0 ++ [8] ++ [63, 128, 0, 0] ++ List.replicate 4 0 ++ [2, 3, 4]

/-- The same block with gate count 0 (must be rejected). -/
def momentBlockBadGates : List Nat :=
  [68, 82, 69, 70] ++ List.replicate 4 0 ++ [0, 0] ++ [3, 232] ++ [0, 250] ++
  List.replicate 5 0 ++ [8] ++ [63, 128, 0, 0] ++ List.replicate 4 0 ++ [2, 3, 4]

/-- A successful gate-sample read is the 8-bit or the 16-bit raw sequence. -/
theorem readGateSamples_some (view : List Nat) (dataStart numGates dataWordSize : Nat)
    (raws : List Nat) (h : readGateSamples view dataStart numGates dataWordSize = some raws) :
    raws = readRaw8 view dataStart numGates ∨ raws = readRaw16 view dataStart numGates := by
  unfold readGateSamples at h
  split at h
  · split at h
    · exact Option.noConfusion h
    · injection h with h; exact Or.inl h.symm
  · split at h
    · split at h
      · exact Option.noConfusion h
      · injection h with h; exact Or.inr h.symm
    · exact Option.noConfusion h

/-- An accepted `_parseMomentBlock` result is fully characterised by the
fields read from the view. -/
theorem parseMomentBlock_some (view : List Nat) (pos : Nat) (md : MomentRec)
    (h : parseMomentBlock view pos = some md) :
    ∃ scale offset,
      getFloat32 view (pos + 20) = some scale ∧
      getFloat32 view (pos + 24) = some offset ∧
      scale ≠ .num 0 ∧
      getUint16 view (pos + 8) = some md.numGates ∧
      1 ≤ md.numGates ∧ md.numGates ≤ 2000 ∧
      (∃ fg, getUint16 view (pos + 10) = some fg ∧ md.firstGate = (fg : ℚ) / 1000) ∧
      (∃ gw, getUint16 view (pos + 12) = some gw ∧ 50 ≤ gw ∧ gw ≤ 4000 ∧
        md.gateWidth = (gw : ℚ) / 1000) ∧
      (∃ raws, (raws = readRaw8 view (pos + 28) md.numGates ∨
                raws = readRaw16 view (pos + 28) md.numGates) ∧
        md.data = raws.map (fun (v : Nat) =>
          if v < 2 then JsF.nan else JsF.div (JsF.sub (.num (v : ℚ)) offset) scale)) := by
  rw [parseMomentBlock] at h
  repeat (split at h <;> try exact Option.noConfusion h)
  all_goals
    simp only [Option.some.injEq] at h
    subst h
    dsimp only
    exact ⟨_, _, by assumption, by assumption, by assumption, by assumption, by omega,
      by omega, ⟨_, by assumption, rfl⟩, ⟨_, by assumption, by omega, by omega, rfl⟩,
      ⟨_, readGateSamples_some view _ _ _ _ (by assumption), rfl⟩⟩

/-- `_parseMomentBlock` rejects a gate count outside [1,2000], a gate
spacing outside [50,4000] meters, and a zero scale. -/
theorem parseMomentBlock_reject (view : List Nat) (pos : Nat) :
    (∀ g, getUint16 view (pos + 8) = some g → (g < 1 ∨ 2000 < g) →
      parseMomentBlock view pos = none) ∧
    (∀ gw, getUint16 view (pos + 12) = some gw → (gw < 50 ∨ 4000 < gw) →
      parseMomentBlock view pos = none) ∧
    (getFloat32 view (pos + 20) = some (.num 0) → parseMomentBlock view pos = none) := by
  refine ⟨?_, ?_, ?_⟩
  · intro g hg hbad
    rw [parseMomentBlock]
    split
    · rfl
    · split
      · simp_all
      · rfl
  · intro gw hgw hbad
    rw [parseMomentBlock]
    split
    · rfl
    · split
      · simp_all
      · rfl
  · intro hsc
    rw [parseMomentBlock]
    split
    · rfl
    · split
      · simp_all
      · rfl

unseal Rat.mul Rat.add Rat.inv Rat.sub in
/-- C2: a moment block is rejected when the gate count is outside [1,2000],
the gate spacing is outside [50,4000] m, or the scale is 0; otherwise raw
gate values 0 and 1 decode to NaN and every other raw value `v` to
`(v - offset) / scale`, with first-gate and spacing scaled to kilometers;
the block with scale 1, offset 0 and gates {2,3,4} decodes to {2,3,4}. -/
theorem c2_momentBlock_spec :
    (∀ (view : List Nat) (pos : Nat) (md : MomentRec),
      parseMomentBlock view pos = some md →
      ∃ scale offset,
        getFloat32 view (pos + 20) = some scale ∧
        getFloat32 view (pos + 24) = some offset ∧
        scale ≠ .num 0 ∧
        getUint16 view (pos + 8) = some md.numGates ∧
        1 ≤ md.numGates ∧ md.numGates ≤ 2000 ∧
        (∃ fg, getUint16 view (pos + 10) = some fg ∧ md.firstGate = (fg : ℚ) / 1000) ∧
        (∃ gw, getUint16 view (pos + 12) = some gw ∧ 50 ≤ gw ∧ gw ≤ 4000 ∧
          md.gateWidth = (gw : ℚ) / 1000) ∧
        (∃ raws, (raws = readRaw8 view (pos + 28) md.numGates ∨
                  raws = readRaw16 view (pos + 28) md.numGates) ∧
          md.data = raws.map (fun (v : Nat) =>
            if v < 2 then JsF.nan else JsF.div (JsF.sub (.num (v : ℚ)) offset) scale))) ∧
    (∀ (view : List Nat) (pos : Nat),
      (∀ g, getUint16 view (pos + 8) = some g → (g < 1 ∨ 2000 < g) →
        parseMomentBlock view pos = none) ∧
      (∀ gw, getUint16 view (pos + 12) = some gw → (gw < 50 ∨ 4000 < gw) →
        parseMomentBlock view pos = none) ∧
      (getFloat32 view (pos + 20) = some (.num 0) → parseMomentBlock view pos = none)) ∧
    parseMomentBlock momentBlock234 0 =
      some { name := [82, 69, 70], numGates := 3, firstGate := 1, gateWidth := 1/4,
             data := [.num 2, .num 3, .num 4] } :=
  ⟨parseMomentBlock_some, parseMomentBlock_reject, by decide⟩

unseal Rat.mul Rat.add Rat.inv Rat.sub in
/-- Witness for C2: the rejection clause fires on a zero gate count, and the
characterisation produces the claimed values on the concrete block. -/
theorem c2_witness :
    parseMomentBlock momentBlockBadGates 0 = none ∧
    (parseMomentBlock momentBlock234 0).map MomentRec.data =
      some [.num 2, .num 3, .num 4] := by
  constructor
  · exact (c2_momentBlock_spec.2.1 momentBlockBadGates 0).1 0 (by decide) (by decide)
  · rw [c2_momentBlock_spec.2.2]
    rfl

/-- A set datetime survives `noteRay`. -/
theorem noteRay_datetime_persist (st : DecState) (ray : Ray) (d : Nat)
    (h : st.datetime = some d) : (noteRay st ray).datetime = some d := by
  rw [noteRay_datetime]
  simp [h]

/-- A set datetime survives the message-scanning loop. -/
theorem parseMessagesLoop_datetime (fuel : Nat) (seg : List Nat) (st : DecState)
    (pos : Nat) (d : Nat) (h : st.datetime = some d) :
    (parseMessagesLoop fuel seg st pos).datetime = some d := by
  induction fuel generalizing st pos with
  | zero => exact h
  | succ n ih =>
    simp only [parseMessagesLoop]
    split
    · split
      · exact ih st (pos + 1) h
      · refine ih _ _ ?_
        unfold dispatchMessage
        split
        · split
          · exact noteRay_datetime_persist st _ d h
          · exact h
        · exact h
    · exact h

/-- A set datetime survives the record-demultiplexing loop. -/
theorem parseRecordsLoop_datetime (bz : DecompressRoutine) (fuel : Nat)
    (data : List Nat) (st : DecState) (pos : Nat) (d : Nat) (h : st.datetime = some d) :
    (parseRecordsLoop bz fuel data st pos).datetime = some d := by
  induction fuel generalizing st pos with
  | zero => exact h
  | succ n ih =>
    simp only [parseRecordsLoop]
    split
    · split
      · exact h
      · split
        · exact h
        · split
          · exact h
          · refine ih _ _ ?_
            split
            · exact parseMessagesLoop_datetime _ _ st 0 d h
            · exact h
    · exact h

/-- C3 (amended): the volume datetime is first-valid-wins — once set (by
the header or an earlier ray) no later ray changes it, and an accepted ray
fills it only while it is unset; the station id, however, is last-wins —
every accepted ray's (always non-empty) id overwrites it. -/
theorem c3_station_last_datetime_first :
    (∀ (st : DecState) (ray : Ray) (d : Nat), st.datetime = some d →
      (noteRay st ray).datetime = some d) ∧
    (∀ (st : DecState) (ray : Ray), st.datetime = none → ray.datetime ≠ none →
      (noteRay st ray).datetime = ray.datetime) ∧
    (∀ (st : DecState) (ray : Ray), ray.stationId ≠ [] →
      (noteRay st ray).stationId = ray.stationId) ∧
    (∀ (fuel : Nat) (seg : List Nat) (st : DecState) (pos d : Nat),
      st.datetime = some d → (parseMessagesLoop fuel seg st pos).datetime = some d) ∧
    (∀ (bz : DecompressRoutine) (fuel : Nat) (data : List Nat) (st : DecState) (pos d : Nat),
      st.datetime = some d → (parseRecordsLoop bz fuel data st pos).datetime = some d) := by
  refine ⟨noteRay_datetime_persist, ?_, ?_, parseMessagesLoop_datetime, parseRecordsLoop_datetime⟩
  · intro st ray h1 h2
    rw [noteRay_datetime]
    simp [h1, h2]
  · intro st ray h
    rw [noteRay_stationId]
    simp [h]

unseal Rat.mul Rat.add Rat.inv Rat.sub in
/-- C3 counterexample to "first valid station id wins": with two accepted
rays carrying ids `KAAA` then `KBBB`, the exposed station id is the second
ray's. -/
theorem c3_counterexample :
    (parseVolume bz0 bufTwoStations).toOption.map Volume.stationId
      = some [75, 66, 66, 66] ∧
    (parseVolume bz0 bufTwoStations).toOption.map (fun v => v.rays.map (List.map Ray.stationId))
      = some [[[75, 65, 65, 65], [75, 66, 66, 66]]] ∧
    [75, 65, 65, 65] ≠ ([75, 66, 66, 66] : List Nat) :=
  ⟨by decide, by decide, by decide⟩

/-- Witness for C3 on concrete states. -/
theorem c3_witness :
    (noteRay ⟨[], [], some 5, 0⟩ default).datetime = some 5 ∧
    (noteRay ⟨[], [], none, 0⟩ ⟨[75], 0, .nan, 0, [], 0, some 7⟩).datetime = some 7 ∧
    (noteRay ⟨[], [], none, 0⟩ ⟨[75], 0, .nan, 0, [], 0, some 7⟩).stationId = [75] := by
  refine ⟨?_, ?_, ?_⟩
  · exact c3_station_last_datetime_first.1 ⟨[], [], some 5, 0⟩ default 5 rfl
  · exact c3_station_last_datetime_first.2.1 _ _ rfl (by simp)
  · exact c3_station_last_datetime_first.2.2.1 _ _ (by simp)

/-- A 32-byte segment whose single message header declares size 7 half-words
(14 bytes, below the 16-byte floor). -/
def resyncSeg : List Nat := List.replicate 12 0 ++ [0, 7, 0, 31] ++ List.replicate 16 0

/-- C6: while the loop guard holds, a declared size below 16 or above 20000
advances the scan position by exactly one byte with the state unchanged
(the segment is never abandoned); otherwise the scanner advances by exactly
12 + size bytes, updating the state only through the type-31 dispatch. -/
theorem c6_scanner_step :
    ∀ (fuel : Nat) (seg : List Nat) (st : DecState) (pos : Nat),
      pos + 28 < seg.length →
      ((msgSizeAt seg pos < 16 ∨ 20000 < msgSizeAt seg pos) →
        parseMessagesLoop (fuel + 1) seg st pos = parseMessagesLoop fuel seg st (pos + 1)) ∧
      (16 ≤ msgSizeAt seg pos → msgSizeAt seg pos ≤ 20000 →
        parseMessagesLoop (fuel + 1) seg st pos =
          parseMessagesLoop fuel seg (dispatchMessage seg st pos (msgSizeAt seg pos))
            (pos + 12 + msgSizeAt seg pos)) ∧
      (byteAtD seg (pos + 15) ≠ 31 → dispatchMessage seg st pos (msgSizeAt seg pos) = st) := by
  intro fuel seg st pos h
  refine ⟨?_, ?_, ?_⟩
  · intro hbad
    simp only [parseMessagesLoop]
    rw [if_pos h, if_pos hbad]
  · intro h1 h2
    simp only [parseMessagesLoop]
    rw [if_pos h, if_neg (by omega)]
  · intro hty
    unfold dispatchMessage
    rw [if_neg hty]

/-- Witness for C6: a declared 14-byte message triggers one-byte resync. -/
theorem c6_witness :
    msgSizeAt resyncSeg 0 = 14 ∧
    parseMessagesLoop 32 resyncSeg ⟨[], [], none, 0⟩ 0 =
      parseMessagesLoop 31 resyncSeg ⟨[], [], none, 0⟩ 1 := by
  refine ⟨by decide, ?_⟩
  exact (c6_scanner_step 31 resyncSeg ⟨[], [], none, 0⟩ 0 (by decide)).1 (Or.inl (by decide))

/-- One full iteration of the record-demultiplexing loop, conditioned on the
decoded record-size field. -/
theorem parseRecordsLoop_step (bz : DecompressRoutine) (fuel : Nat) (data : List Nat)
    (st : DecState) (pos : Nat) (h4 : pos + 4 < data.length) (sz : Int)
    (hsz : getInt32 data pos = some sz) :
    (sz = 0 → parseRecordsLoop bz (fuel + 1) data st pos = st) ∧
    (sz ≠ 0 → data.length < pos + 4 + sz.natAbs →
      parseRecordsLoop bz (fuel + 1) data st pos = st) ∧
    (sz ≠ 0 → pos + 4 + sz.natAbs ≤ data.length →
      parseRecordsLoop bz (fuel + 1) data st pos =
        parseRecordsLoop bz fuel data
          (match (if 0 < sz then decompressChunk bz ((data.drop (pos + 4)).take sz.natAbs)
                  else some ((data.drop (pos + 4)).take sz.natAbs)) with
           | some seg => parseMessages seg st
           | none => st)
          (pos + 4 + sz.natAbs)) := by
  refine ⟨?_, ?_, ?_⟩
  · intro h0
    subst h0
    simp only [parseRecordsLoop]
    rw [if_pos h4, hsz]
    simp
  · intro hne hov
    simp only [parseRecordsLoop]
    rw [if_pos h4, hsz]
    dsimp only
    rw [if_neg hne, if_pos hov]
  · intro hne hfit
    simp only [parseRecordsLoop]
    rw [if_pos h4, hsz]
    dsimp only
    rw [if_neg hne, if_neg (not_lt.mpr hfit)]

/-- C7: the record demultiplexer reads a signed 32-bit size; 0 terminates
scanning even with bytes remaining, a negative size is an uncompressed
segment of length |size| forwarded as-is, a positive size is a compressed
segment of that length, and a segment running past the buffer stops the
scan keeping the state (rays) gathered so far. -/
theorem c7_record_sizes :
    ∀ (bz : DecompressRoutine) (fuel : Nat) (data : List Nat) (st : DecState) (pos : Nat)
      (sz : Int), pos + 4 < data.length → getInt32 data pos = some sz →
      (sz = 0 → parseRecordsLoop bz (fuel + 1) data st pos = st) ∧
      (sz < 0 → pos + 4 + sz.natAbs ≤ data.length →
        parseRecordsLoop bz (fuel + 1) data st pos =
          parseRecordsLoop bz fuel data
            (parseMessages ((data.drop (pos + 4)).take sz.natAbs) st)
            (pos + 4 + sz.natAbs)) ∧
      (0 < sz → pos + 4 + sz.natAbs ≤ data.length →
        parseRecordsLoop bz (fuel + 1) data st pos =
          parseRecordsLoop bz fuel data
            (match decompressChunk bz ((data.drop (pos + 4)).take sz.natAbs) with
             | some seg => parseMessages seg st
             | none => st)
            (pos + 4 + sz.natAbs)) ∧
      (sz ≠ 0 → data.length < pos + 4 + sz.natAbs →
        parseRecordsLoop bz (fuel + 1) data st pos = st) := by
  intro bz fuel data st pos sz h4 hsz
  obtain ⟨s1, s2, s3⟩ := parseRecordsLoop_step bz fuel data st pos h4 sz hsz
  refine ⟨s1, ?_, ?_, s2⟩
  · intro hneg hfit
    rw [s3 (by omega) hfit, if_neg (by omega)]
  · intro hpos hfit
    rw [s3 (by omega) hfit, if_pos hpos]

/-- Witness for C7: a zero size terminates with trailing bytes remaining,
and a size of -2 forwards the 2-byte segment uncompressed. -/
theorem c7_witness :
    parseRecordsLoop bz0 1 [0, 0, 0, 0, 9, 9, 9] ⟨[], [], none, 0⟩ 0 = ⟨[], [], none, 0⟩ ∧
    parseRecordsLoop bz0 1 [255, 255, 255, 254, 1, 2] ⟨[], [], none, 0⟩ 0 =
      parseRecordsLoop bz0 0 [255, 255, 255, 254, 1, 2]
        (parseMessages [1, 2] ⟨[], [], none, 0⟩) 6 := by
  constructor
  · exact (c7_record_sizes bz0 0 _ _ 0 0 (by decide) (by decide)).1 rfl
  · exact (c7_record_sizes bz0 0 [255, 255, 255, 254, 1, 2] ⟨[], [], none, 0⟩ 0 (-2)
      (by decide) (by decide)).2.1 (by decide) (by decide)

/-- C10: a chunk that does not start with the Bzip2 magic `BZ` passes
through decompression unchanged and is forwarded whole to the message
scanner; only a magic-bearing chunk whose external decode fails is dropped,
with scanning continuing at the next segment boundary. -/
theorem c10_decompress_passthrough :
    (∀ (bz : DecompressRoutine) (chunk : List Nat),
      ¬(chunk.get? 0 = some 66 ∧ chunk.get? 1 = some 90) →
      decompressChunk bz chunk = some chunk) ∧
    (∀ (bz : DecompressRoutine) (chunk : List Nat),
      chunk.get? 0 = some 66 → chunk.get? 1 = some 90 →
      decompressChunk bz chunk = bz chunk) ∧
    (∀ (bz : DecompressRoutine) (fuel : Nat) (data : List Nat) (st : DecState)
      (pos : Nat) (sz : Int),
      pos + 4 < data.length → getInt32 data pos = some sz → 0 < sz →
      pos + 4 + sz.natAbs ≤ data.length →
      (¬(((data.drop (pos + 4)).take sz.natAbs).get? 0 = some 66 ∧
         ((data.drop (pos + 4)).take sz.natAbs).get? 1 = some 90) →
        parseRecordsLoop bz (fuel + 1) data st pos =
          parseRecordsLoop bz fuel data
            (parseMessages ((data.drop (pos + 4)).take sz.natAbs) st)
            (pos + 4 + sz.natAbs)) ∧
      (((data.drop (pos + 4)).take sz.natAbs).get? 0 = some 66 →
        ((data.drop (pos + 4)).take sz.natAbs).get? 1 = some 90 →
        bz ((data.drop (pos + 4)).take sz.natAbs) = none →
        parseRecordsLoop bz (fuel + 1) data st pos =
          parseRecordsLoop bz fuel data st (pos + 4 + sz.natAbs))) := by
  have hpass : ∀ (bz : DecompressRoutine) (chunk : List Nat),
      ¬(chunk.get? 0 = some 66 ∧ chunk.get? 1 = some 90) →
      decompressChunk bz chunk = some chunk := by
    intro bz chunk h
    unfold decompressChunk
    rw [if_neg h]
  have hmagic : ∀ (bz : DecompressRoutine) (chunk : List Nat),
      chunk.get? 0 = some 66 → chunk.get? 1 = some 90 →
      decompressChunk bz chunk = bz chunk := by
    intro bz chunk h1 h2
    unfold decompressChunk
    rw [if_pos ⟨h1, h2⟩]
  refine ⟨hpass, hmagic, ?_⟩
  intro bz fuel data st pos sz h4 hsz hpos hfit
  obtain ⟨-, -, s3⟩ := parseRecordsLoop_step bz fuel data st pos h4 sz hsz
  constructor
  · intro hnm
    rw [s3 (by omega) hfit, if_pos hpos, hpass bz _ hnm]
  · intro h1 h2 hfail
    rw [s3 (by omega) hfit, if_pos hpos, hmagic bz _ h1 h2, hfail]

/-- Witness for C10 on concrete chunks (the external routine always fails,
which only matters for the magic-bearing chunk). -/
theorem c10_witness :
    decompressChunk bz0 [1, 2, 3] = some [1, 2, 3] ∧
    decompressChunk bz0 [66, 90, 7] = none := by
  constructor
  · exact c10_decompress_passthrough.1 bz0 [1, 2, 3] (by decide)
  · rw [c10_decompress_passthrough.2.1 bz0 [66, 90, 7] rfl rfl]
    rfl

/-- A moments object contains a key iff some entry carries it. -/
theorem findMoment_ne_none_iff (ms : List (MomentName × MomentRec)) (m : MomentName) :
    findMoment ms m ≠ none ↔ ∃ p ∈ ms, p.1 = m := by
  induction ms with
  | nil => simp [findMoment]
  | cons q rest ih =>
    obtain ⟨k, v⟩ := q
    by_cases hk : k = m
    · subst hk
      simp [findMoment]
    · simp only [findMoment, if_neg hk, ih, List.mem_cons]
      constructor
      · rintro ⟨p, hp, he⟩
        exact ⟨p, Or.inr hp, he⟩
      · rintro ⟨p, hp | hp, he⟩
        · subst hp; exact absurd he hk
        · exact ⟨p, hp, he⟩

/-- Membership in the de-duplicating key fold of `getMomentsForSweep`. -/
theorem mem_insFold (ps : List (MomentName × MomentRec)) :
    ∀ (acc : List MomentName) (m : MomentName),
      m ∈ ps.foldl (fun acc2 p => if p.1 ∈ acc2 then acc2 else acc2 ++ [p.1]) acc ↔
      m ∈ acc ∨ ∃ p ∈ ps, p.1 = m := by
  induction ps with
  | nil => simp
  | cons q rest ih =>
    intro acc m
    simp only [List.foldl_cons, ih, List.mem_cons]
    by_cases hq : q.1 ∈ acc
    · rw [if_pos hq]
      constructor
      · rintro (h | ⟨p, hp, he⟩)
        · exact Or.inl h
        · exact Or.inr ⟨p, Or.inr hp, he⟩
      · rintro (h | ⟨p, hp | hp, he⟩)
        · exact Or.inl h
        · subst hp; exact Or.inl (he ▸ hq)
        · exact Or.inr ⟨p, hp, he⟩
    · rw [if_neg hq]
      simp only [List.mem_append, List.mem_singleton]
      constructor
      · rintro ((h | h) | ⟨p, hp, he⟩)
        · exact Or.inl h
        · exact Or.inr ⟨q, Or.inl rfl, h.symm⟩
        · exact Or.inr ⟨p, Or.inr hp, he⟩
      · rintro (h | ⟨p, hp | hp, he⟩)
        · exact Or.inl (Or.inl h)
        · subst hp; exact Or.inl (Or.inr he.symm)
        · exact Or.inr ⟨p, hp, he⟩

/-- A moment name is listed for a sweep iff some ray of the sweep has it. -/
theorem mem_sweepMoments (sweepRays : List Ray) (m : MomentName) :
    m ∈ sweepMoments sweepRays ↔ ∃ r ∈ sweepRays, findMoment r.moments m ≠ none := by
  unfold sweepMoments
  rw [(List.perm_insertionSort _ _).mem_iff]
  have aux : ∀ (rays : List Ray) (acc : List MomentName),
      m ∈ rays.foldl (fun acc r => r.moments.foldl
        (fun acc2 p => if p.1 ∈ acc2 then acc2 else acc2 ++ [p.1]) acc) acc ↔
      m ∈ acc ∨ ∃ r ∈ rays, ∃ p ∈ r.moments, p.1 = m := by
    intro rays
    induction rays with
    | nil => simp
    | cons r rest ih =>
      intro acc
      simp only [List.foldl_cons, ih, mem_insFold, List.mem_cons]
      constructor
      · rintro ((h | ⟨p, hp, he⟩) | ⟨r', hr', hp⟩)
        · exact Or.inl h
        · exact Or.inr ⟨r, Or.inl rfl, p, hp, he⟩
        · exact Or.inr ⟨r', Or.inr hr', hp⟩
      · rintro (h | ⟨r', hr' | hr', hp⟩)
        · exact Or.inl (Or.inl h)
        · subst hr'; exact Or.inl (Or.inr hp)
        · exact Or.inr ⟨r', hr', hp⟩
  rw [aux]
  simp only [List.not_mem_nil, false_or]
  constructor
  · rintro ⟨r, hr, p, hp, he⟩
    exact ⟨r, hr, (findMoment_ne_none_iff _ _).mpr ⟨p, hp, he⟩⟩
  · rintro ⟨r, hr, hf⟩
    obtain ⟨p, hp, he⟩ := (findMoment_ne_none_iff _ _).mp hf
    exact ⟨r, hr, p, hp, he⟩

/-- `findSome?` succeeds when some element succeeds. -/
theorem findSome?_ne_none {α β : Type} (l : List α) (f : α → Option β)
    (h : ∃ x ∈ l, f x ≠ none) : l.findSome? f ≠ none := by
  induction l with
  | nil => simp at h
  | cons a rest ih =>
    obtain ⟨x, hx, hfx⟩ := h
    rw [List.findSome?_cons]
    rcases List.mem_cons.mp hx with he | hm
    · subst he
      match hfa : f x with
      | some b => simp
      | none => exact absurd hfa hfx
    · match hfa : f a with
      | some b => simp
      | none => exact ih ⟨x, hm, hfx⟩

/-- C8: the public API fails exactly in the fatal and query-local cases —
construction errors iff the buffer is below the 24-byte header or no sweep
gathered any ray; `getMomentsForSweep` errors iff the index is out of
range; `getData` errors iff the index is out of range or the moment is
absent from the sweep (the source's "no ray contains data" throw is proved
unreachable). All other corruption is skipped: the decoder is a total
function into `Except`, and a failed query leaves the volume untouched
(the model is pure — queries take the volume as a read-only value). -/
theorem c8_errors_iff :
    (∀ (bz : DecompressRoutine) (buf : List Nat),
      (∃ e, parseVolume bz buf = .error e) ↔
        (buf.length < 24 ∨ volumeRays (fullParse bz buf) = [] ∨
         (volumeRays (fullParse bz buf)).all List.isEmpty)) ∧
    (∀ (vol : Volume) (sweepIndex : Int),
      (∃ e, getMomentsForSweep vol sweepIndex = .error e) ↔
        (sweepIndex < 0 ∨ (vol.rays.length : Int) ≤ sweepIndex)) ∧
    (∀ (vol : Volume) (sweepIndex : Int) (m : MomentName),
      (∃ e, getData vol sweepIndex m = .error e) ↔
        ((sweepIndex < 0 ∨ (vol.rays.length : Int) ≤ sweepIndex) ∨
         m ∉ sweepMoments (vol.rays.getD sweepIndex.toNat []))) := by
  refine ⟨?_, ?_, ?_⟩
  · intro bz buf
    constructor
    · rintro ⟨e, he⟩
      simp only [parseVolume] at he
      split at he
      · exact Or.inl (by assumption)
      · split at he
        · rename_i hcond
          rcases hcond with h | h
          · exact Or.inr (Or.inl h)
          · exact Or.inr (Or.inr h)
        · exact Except.noConfusion he
    · intro h
      simp only [parseVolume]
      split
      · exact ⟨_, rfl⟩
      · split
        · exact ⟨_, rfl⟩
        · rename_i hlen hcond
          rcases h with h | h
          · exact absurd h hlen
          · exact absurd h (by simpa [not_or] using hcond)
  · intro vol sweepIndex
    constructor
    · rintro ⟨e, he⟩
      unfold getMomentsForSweep at he
      split at he
      · assumption
      · exact Except.noConfusion he
    · intro h
      unfold getMomentsForSweep
      rw [if_pos h]
      exact ⟨_, rfl⟩
  · intro vol sweepIndex m
    constructor
    · rintro ⟨e, he⟩
      simp only [getData] at he
      split at he
      · exact Or.inl (by assumption)
      · split at he
        · exact Or.inr (by assumption)
        · split at he
          · rename_i hmem x hnone
            exfalso
            obtain ⟨r, hr, hf⟩ := (mem_sweepMoments _ m).mp (not_not.mp hmem)
            refine findSome?_ne_none _ _ ⟨r, hr, ?_⟩ hnone
            intro hcontra
            rw [Option.map_eq_none'] at hcontra
            exact hf hcontra
          · exact Except.noConfusion he
    · intro h
      simp only [getData]
      split
      · exact ⟨_, rfl⟩
      · split
        · exact ⟨_, rfl⟩
        · rename_i hidx hmem
          rcases h with h | h
          · exact absurd h hidx
          · exact absurd h (by simpa using hmem)

/-- Witness for C8: a too-small buffer, a negative sweep index, and a
missing moment each surface as an error. -/
theorem c8_witness :
    (∃ e, parseVolume bz0 [] = .error e) ∧
    (∃ e, getMomentsForSweep default (-1) = .error e) ∧
    (∃ e, getData default 0 MomentName.REF = .error e) := by
  refine ⟨?_, ?_, ?_⟩
  · exact (c8_errors_iff.1 bz0 []).mpr (Or.inl (by decide))
  · exact (c8_errors_iff.2.1 default (-1)).mpr (Or.inl (by decide))
  · exact (c8_errors_iff.2.2 default 0 .REF).mpr (Or.inl (Or.inr (by decide)))

/-- Each row the `getData` copy loop produces has the representative's gate
count. -/
theorem getDataRow_length (m : MomentName) (n : Nat) (ray : Ray) :
    (getDataRow m n ray).length = n := by
  unfold getDataRow
  split
  · rename_i rm heq
    simp only [List.length_append, List.length_take, List.length_replicate]
    omega
  · simp

/-- Gate `g` of a `getData` row: the ray's own sample when the ray has the
moment and the gate index is inside its own data, NaN otherwise. -/
theorem getDataRow_get? (m : MomentName) (n : Nat) (ray : Ray) (g : Nat) (hg : g < n) :
    (getDataRow m n ray).get? g =
      some (match findMoment ray.moments m with
            | none => JsF.nan
            | some rm => if g < rm.data.length then rm.data.getD g JsF.nan else JsF.nan) := by
  unfold getDataRow
  split
  · rename_i rm heq
    rw [heq]
    by_cases hl : g < min rm.data.length n
    · have hg' : g < rm.data.length := by omega
      rw [List.get?_append (by simp only [List.length_take]; omega)]
      rw [List.get?_take (by omega)]
      simp only [if_pos hg', List.get?_eq_get hg', Option.some.injEq]
      exact (List.getD_eq_get _ _ hg').symm
    · have hlen : rm.data.length ≤ g := by omega
      rw [List.get?_append_right (by simp only [List.length_take]; omega)]
      simp only [List.length_take, if_neg (not_lt.mpr hlen), List.get?_eq_getElem?,
        List.getElem?_replicate]
      rw [if_pos (by omega)]
  · rename_i heq
    rw [heq]
    simp only [List.get?_eq_getElem?, List.getElem?_replicate]
    rw [if_pos hg]

/-- Row-major indexing of a flattened uniform-row matrix. -/
theorem flatten_get?_uniform {α : Type} (rows : List (List α)) (n : Nat)
    (hlen : ∀ row ∈ rows, row.length = n) :
    ∀ (j g : Nat), j < rows.length → g < n →
      rows.flatten.get? (j * n + g) = (rows.getD j []).get? g := by
  induction rows with
  | nil => intro j g hj _; simp at hj
  | cons row rest ih =>
    intro j g hj hg
    have hrow : row.length = n := hlen row (by simp)
    cases j with
    | zero =>
      simp only [List.flatten_cons, Nat.zero_mul, Nat.zero_add]
      rw [List.get?_append (by omega)]
      rfl
    | succ j' =>
      simp only [List.flatten_cons]
      rw [List.get?_append_right (by rw [hrow]; calc
        n ≤ (j' + 1) * n := by exact Nat.le_mul_of_pos_left n (by omega)
        _ ≤ (j' + 1) * n + g := Nat.le_add_right _ _)]
      have harith : (j' + 1) * n + g - row.length = j' * n + g := by
        rw [hrow]
        ring_nf
        omega
      rw [harith]
      have := ih (fun r hr => hlen r (List.mem_cons_of_mem _ hr)) j' g (by simpa using hj) hg
      rw [this]
      rfl

theorem getD_map_of_lt {α β : Type} (f : α → β) (l : List α) (j : Nat)
    (hj : j < l.length) (d : β) (d' : α) :
    (l.map f).getD j d = f (l.getD j d') := by
  rw [List.getD_eq_get _ _ (by simpa using hj), List.getD_eq_get _ _ hj]
  simp

/-- C5: a valid `getData` query succeeds; the representative is the first
ray holding the moment (the `findSome?` equation), the ranges are
`firstGate + i·gateWidth` for the representative's gate count, the azimuths
list the sweep's rays in original order, and the flat row-major samples
give NaN for a ray lacking the moment, NaN past a shorter ray's own data,
and the ray's own (truncated) samples otherwise. -/
theorem c5_getData_spec (vol : Volume) (sweepIndex : Int) (m : MomentName)
    (h0 : 0 ≤ sweepIndex) (h1 : sweepIndex < (vol.rays.length : Int))
    (hm : ∃ r ∈ vol.rays.getD sweepIndex.toNat [], findMoment r.moments m ≠ none) :
    ∃ res templateRay momentInfo,
      getData vol sweepIndex m = .ok res ∧
      (vol.rays.getD sweepIndex.toNat []).findSome?
          (fun r => (findMoment r.moments m).map (fun mi => (r, mi)))
        = some (templateRay, momentInfo) ∧
      findMoment templateRay.moments m = some momentInfo ∧
      res.dims = ((vol.rays.getD sweepIndex.toNat []).length, momentInfo.numGates) ∧
      res.azimuths = (vol.rays.getD sweepIndex.toNat []).map Ray.azimuth ∧
      res.ranges.length = momentInfo.numGates ∧
      (∀ i : Nat, i < momentInfo.numGates →
        res.ranges.get? i = some (momentInfo.firstGate + (i : ℚ) * momentInfo.gateWidth)) ∧
      (∀ j g : Nat, j < (vol.rays.getD sweepIndex.toNat []).length →
        g < momentInfo.numGates →
        res.data.get? (j * momentInfo.numGates + g) =
          some (match findMoment ((vol.rays.getD sweepIndex.toNat []).getD j default).moments m
                with
                | none => JsF.nan
                | some rm => if g < rm.data.length then rm.data.getD g JsF.nan
                             else JsF.nan)) := by
  have hnotbad : ¬(sweepIndex < 0 ∨ (vol.rays.length : Int) ≤ sweepIndex) := by
    push_neg
    exact ⟨h0, h1⟩
  have hmem : m ∈ sweepMoments (vol.rays.getD sweepIndex.toNat []) :=
    (mem_sweepMoments _ m).mpr hm
  obtain ⟨r0, hr0, hf0⟩ := hm
  have hfs : (vol.rays.getD sweepIndex.toNat []).findSome?
      (fun r => (findMoment r.moments m).map (fun mi => (r, mi))) ≠ none := by
    refine findSome?_ne_none _ _ ⟨r0, hr0, ?_⟩
    intro hc
    rw [Option.map_eq_none'] at hc
    exact hf0 hc
  match hfse : (vol.rays.getD sweepIndex.toNat []).findSome?
      (fun r => (findMoment r.moments m).map (fun mi => (r, mi))) with
  | none => exact absurd hfse hfs
  | some (templateRay, momentInfo) =>
    have hres : getData vol sweepIndex m = .ok
        { data := ((vol.rays.getD sweepIndex.toNat []).map
            (getDataRow m momentInfo.numGates)).flatten
          azimuths := (vol.rays.getD sweepIndex.toNat []).map Ray.azimuth
          ranges := (List.range momentInfo.numGates).map
            (fun (i : Nat) => (i : ℚ) * momentInfo.gateWidth + momentInfo.firstGate)
          elevation := (vol.sweepsData.getD sweepIndex.toNat ⟨0, .nan, 0⟩).elevation
          dims := ((vol.rays.getD sweepIndex.toNat []).length, momentInfo.numGates) } := by
      simp only [getData]
      rw [if_neg hnotbad, if_neg (not_not_intro hmem), hfse]
    have htpl : findMoment templateRay.moments m = some momentInfo := by
      obtain ⟨a, _, hfa⟩ := List.exists_of_findSome?_eq_some hfse
      rw [Option.map_eq_some'] at hfa
      obtain ⟨mi, hmi, he⟩ := hfa
      injection he with he1 he2
      subst he1
      subst he2
      exact hmi
    refine ⟨_, templateRay, momentInfo, hres, hfse, htpl, rfl, rfl, by simp, ?_, ?_⟩
    · intro i hi
      simp only [List.get?_map, List.get?_range hi, Option.map_some']
      rw [add_comm ((i : ℚ) * momentInfo.gateWidth) momentInfo.firstGate]
    · intro j g hj hg
      rw [flatten_get?_uniform _ momentInfo.numGates
        (by intro row hrow
            obtain ⟨r, _, hrw⟩ := List.mem_map.mp hrow
            rw [← hrw]
            exact getDataRow_length m momentInfo.numGates r) j g (by simpa using hj) hg]
      rw [getD_map_of_lt (getDataRow m momentInfo.numGates) _ j hj [] default]
      exact getDataRow_get? m momentInfo.numGates _ g hg

/-- A 3-gate `REF` moment record. -/
def refRec3 : MomentRec :=
  { name := [82, 69, 70], numGates := 3, firstGate := 1, gateWidth := 1/4,
    data := [.num 2, .num 3, .num 4] }

/-- A ray holding `refRec3`. -/
def rayA : Ray :=
  { stationId := [75], azimuth := 10, elevation := .num 1, sweepNumber := 1,
    moments := [(MomentName.REF, refRec3)], vcp := 0, datetime := none }

/-- A ray holding only `VEL` (2 gates). -/
def rayB : Ray :=
  { stationId := [75], azimuth := 20, elevation := .num 1, sweepNumber := 1,
    moments := [(MomentName.VEL,
      { name := [86, 69, 76], numGates := 2, firstGate := 1, gateWidth := 1/4,
        data := [.num 5, .num 6] })], vcp := 0, datetime := none }

/-- A ray holding `REF` with 4 gates (longer than the representative). -/
def rayC : Ray :=
  { stationId := [75], azimuth := 30, elevation := .num 1, sweepNumber := 1,
    moments := [(MomentName.REF,
      { name := [82, 69, 70], numGates := 4, firstGate := 1, gateWidth := 1/4,
        data := [.num 7, .num 8, .num 9, .num 10] })], vcp := 0, datetime := none }

/-- A hand-built volume with one sweep of three rays: `REF` with 3 gates,
`VEL` only, and `REF` with 4 gates (to exercise NaN rows and truncation). -/
def volC5 : Volume :=
  { stationId := [75], datetime := none, vcp := 0,
    sweepsData := [{ index := 0, elevation := .num 1, rayCount := 3 }],
    rays := [[rayA, rayB, rayC]] }

unseal Rat.mul Rat.add Rat.inv Rat.sub in
/-- Witness for C5: the valid query on the hand-built volume succeeds; the
`VEL`-only ray's row is NaN and the long ray's samples appear truncated. -/
theorem c5_witness :
    ∃ res, getData volC5 0 MomentName.REF = .ok res ∧
      res.data.get? 3 = some JsF.nan ∧ res.data.get? 8 = some (JsF.num 9) := by
  obtain ⟨res, t, mi, hok, hfse, -, -, -, -, -, hdata⟩ :=
    c5_getData_spec volC5 0 MomentName.REF (by decide) (by decide)
      ⟨rayA, by decide, by decide⟩
  have hconc : (volC5.rays.getD (Int.toNat 0) []).findSome?
      (fun r => (findMoment r.moments MomentName.REF).map (fun mi => (r, mi)))
      = some (rayA, refRec3) := by decide
  have hpair : (t, mi) = (rayA, refRec3) := Option.some_injective _ (hfse.symm.trans hconc)
  have hmi : mi = refRec3 := congrArg Prod.snd hpair
  refine ⟨res, hok, ?_, ?_⟩
  · have := hdata 1 0 (by decide) (by rw [hmi]; decide)
    rw [hmi] at this
    simpa using this
  · have := hdata 2 2 (by decide) (by rw [hmi]; decide)
    rw [hmi] at this
    simpa using this

/-- Loop invariant of `binarySearch`: with enough fuel the result is the
upper-bound insertion point — everything to its left is `≤ v`, everything
from it on is `> v`. -/
theorem binarySearchLoop_spec (arr : List ℚ) (v : ℚ)
    (hmono : ∀ i j : Nat, i ≤ j → j < arr.length → valAt arr i ≤ valAt arr j) :
    ∀ (fuel lo hi : Nat), hi - lo ≤ fuel → lo ≤ hi → hi ≤ arr.length →
      (∀ i, i < lo → valAt arr i ≤ v) →
      (∀ i, hi ≤ i → i < arr.length → v < valAt arr i) →
      lo ≤ binarySearchLoop arr v fuel lo hi ∧
      binarySearchLoop arr v fuel lo hi ≤ hi ∧
      (∀ i, i < binarySearchLoop arr v fuel lo hi → valAt arr i ≤ v) ∧
      (∀ i, binarySearchLoop arr v fuel lo hi ≤ i → i < arr.length →
        v < valAt arr i) := by
  intro fuel
  induction fuel with
  | zero =>
    intro lo hi hfuel hlohi hlen hlow hhigh
    have : lo = hi := by omega
    subst this
    exact ⟨le_refl _, le_refl _, hlow, fun i hi' hlen' => hhigh i hi' hlen'⟩
  | succ n ih =>
    intro lo hi hfuel hlohi hlen hlow hhigh
    simp only [binarySearchLoop]
    split
    · rename_i hlt
      have hmid1 : lo ≤ (lo + hi) / 2 := by omega
      have hmid2 : (lo + hi) / 2 < hi := by omega
      split
      · rename_i hle
        have := ih ((lo + hi) / 2 + 1) hi (by omega) (by omega) hlen
          (fun i hi' => le_trans (hmono i ((lo + hi) / 2) (by omega) (by omega)) hle)
          hhigh
        exact ⟨by omega, this.2.1, this.2.2.1, this.2.2.2⟩
      · rename_i hgt
        push_neg at hgt
        have := ih lo ((lo + hi) / 2) (by omega) (by omega) (by omega) hlow
          (fun i hi' hlen' => lt_of_lt_of_le hgt (hmono _ _ hi' hlen'))
        exact ⟨this.1, by omega, this.2.2.1, this.2.2.2⟩
    · rename_i hge
      have : lo = hi := by omega
      subst this
      exact ⟨le_refl _, le_refl _, hlow, fun i hi' hlen' => hhigh i hi' hlen'⟩

/-- `binarySearch` on a value present in a monotone array: the insertion
point is at least 1 and the element just before it equals the value. -/
theorem binarySearch_exact (arr : List ℚ) (v : ℚ)
    (hmono : ∀ i j : Nat, i ≤ j → j < arr.length → valAt arr i ≤ valAt arr j)
    (k : Nat) (hk : k < arr.length) (hv : valAt arr k = v) :
    1 ≤ binarySearch arr v ∧ binarySearch arr v ≤ arr.length ∧
    binarySearch arr v - 1 < arr.length ∧
    valAt arr (binarySearch arr v - 1) = v := by
  obtain ⟨-, hle, hlow, hhigh⟩ := binarySearchLoop_spec arr v hmono arr.length 0 arr.length
    (by omega) (by omega) (le_refl _) (by omega) (by omega)
  have heq : binarySearchLoop arr v arr.length 0 arr.length = binarySearch arr v := rfl
  rw [heq] at hle hlow hhigh
  set r := binarySearch arr v with hr
  have hkr : k < r := by
    by_contra hc
    push_neg at hc
    exact absurd (hv ▸ hhigh k hc hk) (lt_irrefl v)
  refine ⟨by omega, hle, by omega, le_antisymm (hlow (r - 1) (by omega)) ?_⟩
  calc v = valAt arr k := hv.symm
  _ ≤ valAt arr (r - 1) := hmono k (r - 1) (by omega) (by omega)

theorem sortedAzIndices_perm (az : List ℚ) :
    (sortedAzIndices az).Perm (List.range az.length) :=
  List.perm_insertionSort _ _

theorem sortedAzIndices_length (az : List ℚ) :
    (sortedAzIndices az).length = az.length := by
  rw [(sortedAzIndices_perm az).length_eq, List.length_range]

theorem sortedAzIndices_lt (az : List ℚ) :
    ∀ x ∈ sortedAzIndices az, x < az.length := by
  intro x hx
  exact List.mem_range.mp ((sortedAzIndices_perm az).mem_iff.mp hx)

theorem azSorted_mono (az : List ℚ) :
    ∀ i j : Nat, i ≤ j → j < (azSorted az).length →
      valAt (azSorted az) i ≤ valAt (azSorted az) j := by
  have hsorted : List.Sorted (azLex az) (sortedAzIndices az) :=
    List.sorted_insertionSort _ _
  intro i j hij hj
  rcases Nat.eq_or_lt_of_le hij with he | hlt
  · subst he; exact le_refl _
  · have hj' : j < (sortedAzIndices az).length := by
      simpa [azSorted] using hj
    have hi' : i < (sortedAzIndices az).length := by omega
    have hrel := List.pairwise_iff_get.mp hsorted ⟨i, hi'⟩ ⟨j, hj'⟩ hlt
    have hvi : valAt (azSorted az) i = valAt az ((sortedAzIndices az).get ⟨i, hi'⟩) := by
      unfold azSorted valAt
      rw [List.getD_eq_get _ _ (by simpa using hi')]
      simp [List.get_map]
    have hvj : valAt (azSorted az) j = valAt az ((sortedAzIndices az).get ⟨j, hj'⟩) := by
      unfold azSorted valAt
      rw [List.getD_eq_get _ _ (by simpa using hj')]
      simp [List.get_map]
    rw [hvi, hvj]
    rcases hrel with h | ⟨h, -⟩
    · exact le_of_lt h
    · exact le_of_eq h

/-- The azimuth selection maps back to an original ray index whose azimuth
is exactly the pixel azimuth, whenever one exists. -/
theorem chosenAzIdx_exact (az : List ℚ) (pixelAz : ℚ)
    (hj : ∃ j, j < az.length ∧ valAt az j = pixelAz) :
    chosenAzIdx az pixelAz < az.length ∧
    valAt az (chosenAzIdx az pixelAz) = pixelAz := by
  obtain ⟨j, hjlen, hjval⟩ := hj
  have hjmem : j ∈ sortedAzIndices az :=
    (sortedAzIndices_perm az).mem_iff.mpr (List.mem_range.mpr hjlen)
  obtain ⟨⟨k, hk⟩, hkval⟩ := List.mem_iff_get.mp hjmem
  have hklen : k < (azSorted az).length := by
    simpa [azSorted] using hk
  have hkex : valAt (azSorted az) k = pixelAz := by
    unfold azSorted valAt
    rw [List.getD_eq_get _ _ (by simpa using hk)]
    simp only [List.get_map]
    rw [hkval]
    unfold valAt at hjval
    exact hjval
  obtain ⟨hp1, hple, hplt, hpval⟩ :=
    binarySearch_exact (azSorted az) pixelAz (azSorted_mono az) k hklen hkex
  have hplen : binarySearch (azSorted az) pixelAz - 1 < (sortedAzIndices az).length := by
    rw [sortedAzIndices_length]
    have := hplt
    rw [azSorted, List.length_map, sortedAzIndices_length] at this
    exact this
  have hmap : ∀ i : Nat, i < (sortedAzIndices az).length →
      valAt (azSorted az) i = valAt az ((sortedAzIndices az).getD i 0) := by
    intro i hi
    unfold azSorted valAt
    rw [List.getD_eq_get _ _ (by simpa using hi)]
    rw [List.getD_eq_get _ _ hi]
    simp [List.get_map]
  simp only [chosenAzIdx]
  rw [if_neg (by omega)]
  constructor
  · refine sortedAzIndices_lt az _ ?_
    rw [List.getD_eq_get _ _ hplen]
    exact List.get_mem _ _ _
  · rw [← hmap _ hplen]
    exact hpval

/-- C9: for a pixel whose computed range is inside the available bounds and
whose computed azimuth exactly equals some sample's azimuth, the resampler
selects a polar sample whose azimuth is exactly that value: the binary
search over the ascending-sorted azimuths returns the insertion point,
position minus one is taken (the wrap to the last element cannot trigger,
since an exact match forces a positive insertion point), and the sorted
position is mapped back to the original ray index before indexing the
data array. -/
theorem c9_resampler_exact_azimuth :
    ∀ (data : List JsF) (azimuths ranges : List ℚ) (pixelAz pixelRange : ℚ),
      ranges.getD 0 0 ≤ pixelRange → pixelRange ≤ ranges.getD (ranges.length - 1) 0 →
      (∃ j, j < azimuths.length ∧ valAt azimuths j = pixelAz) →
      samplePixel data azimuths ranges pixelAz pixelRange =
        some (data.getD (chosenAzIdx azimuths pixelAz * ranges.length +
          chosenRangeIdx ranges pixelRange) JsF.nan) ∧
      chosenAzIdx azimuths pixelAz < azimuths.length ∧
      valAt azimuths (chosenAzIdx azimuths pixelAz) = pixelAz := by
  intro data azimuths ranges pixelAz pixelRange h1 h2 hj
  obtain ⟨hb, hv⟩ := chosenAzIdx_exact azimuths pixelAz hj
  refine ⟨?_, hb, hv⟩
  simp only [samplePixel]
  rw [if_neg (by push_neg; exact ⟨h2, h1⟩)]

/-- Witness for C9: azimuths `[10, 250, 100]` (unsorted), pixel azimuth
exactly 250 — the selected original ray index is 1. -/
theorem c9_witness :
    samplePixel [.num 7, .num 8, .num 9] [10, 250, 100] [1] 250 1 = some (.num 8) ∧
    chosenAzIdx [10, 250, 100] 250 = 1 := by
  have h := c9_resampler_exact_azimuth [.num 7, .num 8, .num 9] [10, 250, 100] [1] 250 1
    (by decide) (by decide) ⟨1, by decide, by decide⟩
  refine ⟨?_, by decide⟩
  rw [h.1]
  decide
